import Mathlib

/-!
Verification of the Skype message filtering pipeline of `src/main.py`.

The Python source is shallowly embedded: each Python function becomes an
executable Lean definition over `String` / `List Char`; the JSON-derived
dynamic values the program walks become the type `PyVal`; Python exceptions
become `Except PyErr`.  Library behaviour the source relies on
(`html.unescape`, `re.sub`, `re.search`, `datetime.fromisoformat`,
`datetime.strftime`, `list.sort`) is modelled directly, restricted to the
fragments the program exercises (ASCII word characters, the two fixed
regular expressions of the source).  Timestamps are modelled in two tiers:
`fromisoformatTz` parses the full grammar including numeric UTC offsets
(offset-aware values), and the refined sort model raises the `TypeError`
Python raises when offset-aware and offset-naive sort keys are compared;
the record-pipeline theorems that quantify over whole archives use the
offset-naive restriction `fromisoformat` of that parser.
-/

namespace Skype

/-- Whitespace recognised by Python's `str.split()` / `str.strip()`
(ASCII fragment: space, tab, newline, carriage return, vertical tab,
form feed). -/
def isPySpace (c : Char) : Bool :=
  c = ' ' || c = '\t' || c = '\n' || c = '\r' || c = Char.ofNat 11 || c = Char.ofNat 12

/-- Python `str.strip()` with no argument: drop leading and trailing
whitespace. -/
def pyStripChars (cs : List Char) : List Char :=
  ((cs.dropWhile isPySpace).reverse.dropWhile isPySpace).reverse

/-- Worker for the Python `str.split()` model, with fuel bounding the number
of scanning steps (each step consumes at least one input character). -/
def pySplitGo : Nat → List Char → List (List Char)
  | 0, _ => []
  | _ + 1, [] => []
  | fuel + 1, c :: cs =>
    if isPySpace c then pySplitGo fuel cs
    else (c :: cs.takeWhile (fun d => !isPySpace d)) ::
      pySplitGo fuel (cs.dropWhile (fun d => !isPySpace d))

/-- Python `str.split()` with no argument: the whitespace-delimited tokens,
with empty tokens dropped. -/
def pySplitChars (cs : List Char) : List (List Char) :=
  pySplitGo cs.length cs

/-- `content.strip().split()` from the source, producing tokens as strings. -/
def pyWords (s : String) : List String :=
  (pySplitChars (pyStripChars s.toList)).map String.mk

/-- Python `s.rstrip("Z")`: remove every trailing `Z`. -/
def rstripZ (s : String) : String :=
  String.mk ((s.toList.reverse.dropWhile (fun c => c = 'Z')).reverse)

/-- Named HTML entities resolved by the `html.unescape` model. -/
def namedEntity (name : List Char) : Option Char :=
  if name = ['a', 'm', 'p'] then some '&'
  else if name = ['l', 't'] then some '<'
  else if name = ['g', 't'] then some '>'
  else if name = ['q', 'u', 'o', 't'] then some '"'
  else if name = ['a', 'p', 'o', 's'] then some (Char.ofNat 39)
  else if name = ['n', 'b', 's', 'p'] then some (Char.ofNat 160)
  else none

/-- Value of a hexadecimal digit character, if it is one. -/
def hexDigitVal (c : Char) : Option Nat :=
  if c.isDigit then some (c.toNat - 48)
  else if 'a' ≤ c ∧ c ≤ 'f' then some (c.toNat - 87)
  else if 'A' ≤ c ∧ c ≤ 'F' then some (c.toNat - 55)
  else none

/-- Accumulate digit characters in the given base. -/
def digitsToNat (base : Nat) (ds : List Char) : Option Nat :=
  ds.foldl
    (fun acc c =>
      match acc, hexDigitVal c with
      | some a, some v => some (base * a + v)
      | _, _ => none)
    (some 0)

/-- Parse a semicolon-terminated numeric character reference (`#NNN;` or
`#xHH;`) after a `&`; returns the character and the rest of the input. -/
def parseNumRef (base : Nat) (rest : List Char) : Option (Char × List Char) :=
  let isD := fun c => if base = 16 then (hexDigitVal c).isSome else c.isDigit
  match rest.takeWhile isD, rest.dropWhile isD with
  | [], _ => none
  | ds, ';' :: rest2 =>
    match digitsToNat base ds with
    | some n => if Nat.isValidChar n then some (Char.ofNat n, rest2) else none
    | none => none
  | _, _ => none

/-- Parse one character entity following a `&`; returns the decoded character
and the rest of the input, or `none` when the text after the `&` is not a
recognised entity. -/
def parseEntity (cs : List Char) : Option (Char × List Char) :=
  match cs with
  | '#' :: 'x' :: rest => parseNumRef 16 rest
  | '#' :: 'X' :: rest => parseNumRef 16 rest
  | '#' :: rest => parseNumRef 10 rest
  | _ =>
    match namedEntity (cs.takeWhile Char.isAlpha), cs.dropWhile Char.isAlpha with
    | some c, ';' :: rest2 => some (c, rest2)
    | _, _ => none

/-- Worker for the `html.unescape` model, with fuel bounding the number of
scanning steps (each step consumes at least one input character). -/
def unescapeGo : Nat → List Char → List Char
  | 0, cs => cs
  | _ + 1, [] => []
  | fuel + 1, c :: rest =>
    if c = '&' then
      match parseEntity rest with
      | some (d, rest2) => d :: unescapeGo fuel rest2
      | none => c :: unescapeGo fuel rest
    else c :: unescapeGo fuel rest

/-- Model of `html.unescape`: decode semicolon-terminated named entities from
`namedEntity` and numeric character references; every other `&` sequence
passes through unchanged.  (CPython additionally resolves the full HTML5
table, some legacy semicolon-less names, and maps a few invalid numeric
references to U+FFFD; none of the verified claims depend on those cases.) -/
def unescapeChars (cs : List Char) : List Char :=
  unescapeGo cs.length cs

/-- Word character for `\b` in the source's regular expressions (ASCII
fragment of `re` word characters: letters, digits, underscore). -/
def isWordCh (c : Char) : Bool := c.isAlphanum || c = '_'

/-- Whether a word boundary sits immediately before this input position, given
that the character to the left was a word character. -/
def wordBoundaryAt : List Char → Bool
  | [] => true
  | c :: _ => !isWordCh c

/-- Scan for the first literal `</e_m>`; the `.` of the pattern `(.*?)` does
not match a newline, so the scan fails when a newline appears first.  Returns
the remainder of the input after the closing tag. -/
def findEmClose : List Char → Option (List Char)
  | [] => none
  | c :: cs =>
    if (c :: cs).take 6 = ['<', '/', 'e', '_', 'm', '>'] then some ((c :: cs).drop 6)
    else if c = '\n' then none
    else findEmClose cs

/-- Try to match `<e_m\b[^>]*>(.*?)</e_m>` at the head of the input; on
success return the remainder after the whole match. -/
def matchEmPaired (cs : List Char) : Option (List Char) :=
  if cs.take 4 = ['<', 'e', '_', 'm'] then
    let rest := cs.drop 4
    if wordBoundaryAt rest then
      match rest.dropWhile (fun c => c ≠ '>') with
      | '>' :: rest2 => findEmClose rest2
      | _ => none
    else none
  else none

/-- Try to match `<e_m\b[^>]*/>` at the head of the input; on success return
the remainder after the match. -/
def matchEmSelf (cs : List Char) : Option (List Char) :=
  if cs.take 4 = ['<', 'e', '_', 'm'] then
    let rest := cs.drop 4
    if wordBoundaryAt rest then
      match rest.dropWhile (fun c => c ≠ '>'), (rest.takeWhile (fun c => c ≠ '>')).getLast? with
      | '>' :: rest2, some '/' => some rest2
      | _, _ => none
    else none
  else none

/-- Left-to-right non-overlapping substitution scan of `re.sub` for the paired
`<e_m ...>...</e_m>` pattern, deleting every match.  Fuel bounds the steps;
each step consumes at least one character. -/
def subEmPairedGo : Nat → List Char → List Char
  | 0, cs => cs
  | _ + 1, [] => []
  | fuel + 1, c :: cs =>
    match matchEmPaired (c :: cs) with
    | some rest => subEmPairedGo fuel rest
    | none => c :: subEmPairedGo fuel cs

/-- `re.sub(r'<e_m\b[^>]*>(.*?)</e_m>', '', text)`. -/
def subEmPaired (cs : List Char) : List Char :=
  subEmPairedGo cs.length cs

/-- Left-to-right non-overlapping substitution scan of `re.sub` for the
self-closing `<e_m .../>` pattern, deleting every match. -/
def subEmSelfGo : Nat → List Char → List Char
  | 0, cs => cs
  | _ + 1, [] => []
  | fuel + 1, c :: cs =>
    match matchEmSelf (c :: cs) with
    | some rest => subEmSelfGo fuel rest
    | none => c :: subEmSelfGo fuel cs

/-- `re.sub(r'<e_m\b[^>]*/>', '', text)`. -/
def subEmSelf (cs : List Char) : List Char :=
  subEmSelfGo cs.length cs

/-- `clean_content` from `src/main.py`: unescape HTML entities, then delete
`<e_m ...>...</e_m>` spans, then delete self-closing `<e_m .../>` tags. -/
def clean_content (s : String) : String :=
  String.mk (subEmSelf (subEmPaired (unescapeChars s.toList)))

/-- Naive Python `datetime` value. -/
structure PyDateTime where
  year : Nat
  month : Nat
  day : Nat
  hour : Nat
  minute : Nat
  second : Nat
  micro : Nat
deriving Repr, DecidableEq

/-- Gregorian leap-year rule, as used by `datetime`. -/
def isLeapYear (y : Nat) : Bool :=
  y % 4 = 0 && (y % 100 ≠ 0 || y % 400 = 0)

/-- Number of days in the given month of the given year. -/
def daysInMonth (y m : Nat) : Nat :=
  if m = 2 then (if isLeapYear y then 29 else 28)
  else if m = 4 || m = 6 || m = 9 || m = 11 then 30
  else 31

/-- Numeric value of a decimal digit character. -/
def digitVal (c : Char) : Nat := c.toNat - 48

/-- Whether every character of the list is a decimal digit. -/
def allDigits (cs : List Char) : Bool := cs.all Char.isDigit

/-- Decimal value of a digit string. -/
def natOfDigits (cs : List Char) : Nat :=
  cs.foldl (fun a c => 10 * a + digitVal c) 0

/-- Build a time quadruple from digit strings, validating the ranges
`datetime` enforces; a 3-digit fraction denotes milliseconds. -/
def mkTime (hd md sd frac : List Char) : Option (Nat × Nat × Nat × Nat) :=
  if allDigits hd && allDigits md && allDigits sd && allDigits frac then
    let h := natOfDigits hd
    let mi := natOfDigits md
    let se := natOfDigits sd
    let us := if frac.length = 3 then natOfDigits frac * 1000 else natOfDigits frac
    if h ≤ 23 ∧ mi ≤ 59 ∧ se ≤ 59 then some (h, mi, se, us) else none
  else none

/-- Time component grammar of strict `fromisoformat`: `HH`, `HH:MM`,
`HH:MM:SS`, `HH:MM:SS.fff` or `HH:MM:SS.ffffff`. -/
def parseIsoTime : List Char → Option (Nat × Nat × Nat × Nat)
  | [h1, h2] => mkTime [h1, h2] ['0', '0'] ['0', '0'] []
  | [h1, h2, ':', m1, m2] => mkTime [h1, h2] [m1, m2] ['0', '0'] []
  | [h1, h2, ':', m1, m2, ':', s1, s2] => mkTime [h1, h2] [m1, m2] [s1, s2] []
  | [h1, h2, ':', m1, m2, ':', s1, s2, '.', f1, f2, f3] =>
    mkTime [h1, h2] [m1, m2] [s1, s2] [f1, f2, f3]
  | [h1, h2, ':', m1, m2, ':', s1, s2, '.', f1, f2, f3, f4, f5, f6] =>
    mkTime [h1, h2] [m1, m2] [s1, s2] [f1, f2, f3, f4, f5, f6]
  | _ => none

/-- A `+` or `-` sign character, which begins the numeric UTC-offset part of
an ISO time string. -/
def isSignCh (c : Char) : Bool := c = '+' || c = '-'

/-- Python `datetime` value carrying its `tzinfo` as an optional UTC offset
in seconds (`Option.none` for an offset-naive value). -/
structure PyDateTimeTz where
  year : Nat
  month : Nat
  day : Nat
  hour : Nat
  minute : Nat
  second : Nat
  micro : Nat
  tzoff : Option Int
deriving Repr, DecidableEq

/-- Forget the (absent) offset of an offset-naive value. -/
def PyDateTimeTz.toNaive (d : PyDateTimeTz) : PyDateTime :=
  ⟨d.year, d.month, d.day, d.hour, d.minute, d.second, d.micro⟩

/-- UTC-offset grammar of strict `fromisoformat` after the sign: `HH:MM` or
`HH:MM:SS`, validated like a time component; the result is the signed offset
in seconds.  (The rare fractional-second offset form `HH:MM:SS.ffffff` is
outside this fragment.) -/
def parseTzOffset (sign : Char) (cs : List Char) : Option Int :=
  match (match cs with
         | [h1, h2, ':', m1, m2] => mkTime [h1, h2] [m1, m2] ['0', '0'] []
         | [h1, h2, ':', m1, m2, ':', s1, s2] => mkTime [h1, h2] [m1, m2] [s1, s2] []
         | _ => Option.none) with
  | some (h, mi, se, _) =>
    some (if sign = '-' then -((h : Int) * 3600 + mi * 60 + se)
      else (h : Int) * 3600 + mi * 60 + se)
  | Option.none => Option.none

/-- Model of CPython's `datetime.fromisoformat` (the strict grammar matching
what `datetime.isoformat` emits): `YYYY-MM-DD`, optionally followed by one
separator character (any character), a time component, and an optional
numeric UTC offset `±HH:MM[:SS]` introduced by the first `+` or `-` of the
time part.  An offset-bearing string parses to an offset-aware value,
exactly as in Python — where comparing such a value with an offset-naive
one raises `TypeError` (see `cmpKeyLe`). -/
def fromisoformatTz (s : String) : Option PyDateTimeTz :=
  match s.toList with
  | y1 :: y2 :: y3 :: y4 :: '-' :: m1 :: m2 :: '-' :: d1 :: d2 :: rest =>
    if allDigits [y1, y2, y3, y4, m1, m2, d1, d2] then
      match (match rest with
             | [] => some (((0, 0, 0, 0) : Nat × Nat × Nat × Nat), (Option.none : Option Int))
             | _ :: tstr =>
               match parseIsoTime (tstr.takeWhile (fun c => !isSignCh c)),
                   tstr.dropWhile (fun c => !isSignCh c) with
               | some t, [] => some (t, Option.none)
               | some t, sign :: tzs =>
                 match parseTzOffset sign tzs with
                 | some off => some (t, some off)
                 | Option.none => Option.none
               | Option.none, _ => Option.none) with
      | some ((h, mi, se, us), tzo) =>
        if 1 ≤ natOfDigits [y1, y2, y3, y4] ∧
            1 ≤ natOfDigits [m1, m2] ∧ natOfDigits [m1, m2] ≤ 12 ∧
            1 ≤ natOfDigits [d1, d2] ∧
            natOfDigits [d1, d2] ≤ daysInMonth (natOfDigits [y1, y2, y3, y4])
              (natOfDigits [m1, m2]) then
          some ⟨natOfDigits [y1, y2, y3, y4], natOfDigits [m1, m2], natOfDigits [d1, d2],
            h, mi, se, us, tzo⟩
        else none
      | none => none
    else none
  | _ => none

/-- The offset-naive restriction of `fromisoformatTz`, used by the record
pipeline.  An offset-bearing string is out of this fragment and yields
`Option.none` here, whereas in Python it parses to an offset-aware value;
the consequence — `filtered.sort` raising `TypeError` when selected records
mix offset-aware and offset-naive instants — is modelled by the refined
pipeline `filter_messagesTz` and is outside the guarantees proved over this
restriction. -/
def fromisoformat (s : String) : Option PyDateTime :=
  match fromisoformatTz s with
  | some d =>
    match d.tzoff with
    | Option.none => some (PyDateTimeTz.toNaive d)
    | some _ => Option.none
  | Option.none => Option.none

/-- English month name, as `strftime`'s `%B`. -/
def monthName (m : Nat) : String :=
  match m with
  | 1 => "January"
  | 2 => "February"
  | 3 => "March"
  | 4 => "April"
  | 5 => "May"
  | 6 => "June"
  | 7 => "July"
  | 8 => "August"
  | 9 => "September"
  | 10 => "October"
  | 11 => "November"
  | 12 => "December"
  | _ => ""

/-- Zero-pad a number to two digits. -/
def pad2 (n : Nat) : String :=
  if n < 10 then "0" ++ toString n else toString n

/-- Zero-pad a number to four digits. -/
def pad4 (n : Nat) : String :=
  if n < 10 then "000" ++ toString n
  else if n < 100 then "00" ++ toString n
  else if n < 1000 then "0" ++ toString n
  else toString n

/-- `dt.strftime("%B %d, %Y %I:%M:%S %p")`: 12-hour display rendering. -/
def strftimeDisplay (d : PyDateTime) : String :=
  monthName d.month ++ " " ++ pad2 d.day ++ ", " ++ pad4 d.year ++ " " ++
    pad2 (if d.hour % 12 = 0 then 12 else d.hour % 12) ++ ":" ++
    pad2 d.minute ++ ":" ++ pad2 d.second ++ " " ++
    (if d.hour < 12 then "AM" else "PM")

/-- The `iso_date[:-1]` rebinding of `format_date`: remove one trailing `Z`
when present. -/
def stripOneZ (iso_date : String) : String :=
  if iso_date.toList.getLast? = some 'Z' then String.mk iso_date.toList.dropLast
  else iso_date

/-- `format_date` from `src/main.py`.  Note that the `except` branch returns
the local `iso_date`, which has already been rebound to the string with one
trailing `Z` removed whenever the input ended in `Z`. -/
def format_date (iso_date : String) : String :=
  match fromisoformat (stripOneZ iso_date) with
  | some dt => strftimeDisplay dt
  | none => stripOneZ iso_date

/-- Tail of the rating pattern after the digits: the literal `/10` followed by
a word boundary. -/
def ratingTail : List Char → Bool
  | '/' :: '1' :: '0' :: rest => wordBoundaryAt rest
  | _ => false

/-- Try to match `\d+(\.\d+)?/10\b` at the head of the input (the word
boundary before the digits is checked by the caller).  The digit runs are
maximal: a shorter run would leave a digit where the pattern requires `.` or
`/`, so this captures exactly the backtracking matcher's existence
semantics. -/
def ratingFrom (cs : List Char) : Bool :=
  let ds := cs.takeWhile Char.isDigit
  let rest := cs.dropWhile Char.isDigit
  !ds.isEmpty &&
    (ratingTail rest ||
      match rest with
      | '.' :: rs =>
        !(rs.takeWhile Char.isDigit).isEmpty && ratingTail (rs.dropWhile Char.isDigit)
      | _ => false)

/-- Scan of `re.search(r'\b\d+(\.\d+)?/10\b', content)`: at every position
preceded by a non-word character (or the start), try the rating pattern. -/
def searchRatingGo : Bool → List Char → Bool
  | _, [] => false
  | prevW, c :: cs =>
    (!prevW && c.isDigit && ratingFrom (c :: cs)) || searchRatingGo (isWordCh c) cs

/-- Whether the content contains an `N/10` or `N.N/10` rating token. -/
def searchRating (s : String) : Bool :=
  searchRatingGo false s.toList

/-- Dynamic Python value as produced by `json.load`, restricted to the
constructors the archive walk distinguishes. -/
inductive PyVal where
  | pstr (s : String)
  | plist (xs : List PyVal)
  | pdict (kvs : List (String × PyVal))
  | pnone

/-- Exceptions the dynamic walk can raise. -/
inductive PyErr where
  | attributeError
  | typeError
deriving Repr, DecidableEq

/-- `v.get(key, dflt)`: dictionary lookup with a default; attribute access on
a non-dictionary raises `AttributeError`. -/
def PyVal.getOr (v : PyVal) (key : String) (dflt : PyVal) : Except PyErr PyVal :=
  match v with
  | .pdict kvs => .ok (((kvs.find? (fun kv => kv.1 == key)).map Prod.snd).getD dflt)
  | _ => .error .attributeError

/-- `for x in v`: lists iterate their elements, strings their characters,
dictionaries their keys; `None` raises `TypeError`. -/
def PyVal.iterate (v : PyVal) : Except PyErr (List PyVal) :=
  match v with
  | .plist xs => .ok xs
  | .pstr s => .ok (s.toList.map (fun c => .pstr (String.mk [c])))
  | .pdict kvs => .ok (kvs.map (fun kv => .pstr kv.1))
  | .pnone => .error .typeError

/-- Python equality test between a dynamic value and a string: values of
other types compare unequal (no exception). -/
def PyVal.eqStr (v : PyVal) (s : String) : Bool :=
  match v with
  | .pstr t => t == s
  | _ => false

/-- `":" in v`: substring test on a string, membership on a list or a
dictionary, `TypeError` on `None`. -/
def PyVal.containsColon (v : PyVal) : Except PyErr Bool :=
  match v with
  | .pstr t => .ok (t.toList.contains ':')
  | .plist xs => .ok (xs.any (fun x => x.eqStr ":"))
  | .pdict kvs => .ok (kvs.any (fun kv => kv.1 == ":"))
  | .pnone => .error .typeError

/-- `v.split(":", 1)[1]` on a string containing a colon: the part after the
first colon; `.split` on a non-string raises `AttributeError`. -/
def PyVal.afterColon (v : PyVal) : Except PyErr PyVal :=
  match v with
  | .pstr t => .ok (.pstr (String.mk ((t.toList.dropWhile (fun c => c ≠ ':')).tail)))
  | _ => .error .attributeError

/-- `v.rstrip("Z")`; on a non-string `.rstrip` raises `AttributeError`, which
the source's `try` (catching only `ValueError`) does not absorb. -/
def PyVal.rstripZVal (v : PyVal) : Except PyErr String :=
  match v with
  | .pstr t => .ok (rstripZ t)
  | _ => .error .attributeError

/-- `clean_content` applied to a dynamic value: `html.unescape` / `.strip()`
fail on non-strings with an uncaught exception. -/
def PyVal.cleanContent (v : PyVal) : Except PyErr String :=
  match v with
  | .pstr t => .ok (clean_content t)
  | _ => .error .typeError

/-- The dictionary appended to `filtered` in `filter_messages`: the
`datetime`, `date` and `content` entries. -/
structure FilteredRecord where
  datetime : Option PyDateTime
  date : String
  content : String
deriving Repr, DecidableEq

/-- Truthiness of an optional string argument (`None` and the empty string
are falsy). -/
def truthyOptStr : Option String → Bool
  | Option.none => false
  | some s => !s.isEmpty

/-- Sender extraction of lines 50-52: `message.get("from", "")`, then, when a
colon occurs in it, the part after the first colon. -/
def resolveSender (message : PyVal) : Except PyErr PyVal :=
  match message.getOr "from" (.pstr "") with
  | .error e => .error e
  | .ok sender0 =>
    match sender0.containsColon with
    | .error e => .error e
    | .ok hasColon => if hasColon then sender0.afterColon else .ok sender0

/-- The selection predicate of the active mode, applied to the normalised
content: first-token equality for `first_word` (with the source's truthiness
guard on the word), the rating search for `review`, nothing otherwise. -/
def modeSelected (first_word : Option String) (search_method : String)
    (content : String) : Bool :=
  if search_method = "first_word" then
    match first_word with
    | some w => !w.isEmpty && (pyWords content).head? == some w
    | Option.none => false
  else if search_method = "review" then
    searchRating content
  else false

/-- Body of the message loop of `filter_messages` (lines 50-83 of
`src/main.py`): `some` record when the message is selected, `none` when it is
skipped, an error when the dynamic walk raises.  The evaluation order follows
the source: sender extraction, content normalisation, empty-content skip,
sender comparison, timestamp handling, then the mode predicate. -/
def processMessage (username : String) (first_word : Option String)
    (search_method : String) (message : PyVal) :
    Except PyErr (Option FilteredRecord) :=
  match resolveSender message with
  | .error e => .error e
  | .ok sender =>
    match message.getOr "content" (.pstr "") with
    | .error e => .error e
    | .ok contentV =>
      match contentV.cleanContent with
      | .error e => .error e
      | .ok content =>
        if (pyWords content).isEmpty then .ok Option.none
        else if !sender.eqStr username then .ok Option.none
        else
          match message.getOr "originalarrivaltime" (.pstr "Unknown Date") with
          | .error e => .error e
          | .ok isoV =>
            match isoV.rstripZVal with
            | .error e => .error e
            | .ok isoStripped =>
              if modeSelected first_word search_method content then
                .ok (some ⟨fromisoformat isoStripped,
                  (match isoV with
                   | .pstr t => format_date t
                   | _ => ""), content⟩)
              else .ok Option.none

/-- Message-list loop: process the messages in order, collecting the selected
records. -/
def processMessages (username : String) (first_word : Option String)
    (search_method : String) : List PyVal → Except PyErr (List FilteredRecord)
  | [] => .ok []
  | m :: ms =>
    match processMessage username first_word search_method m with
    | .error e => .error e
    | .ok r0 =>
      match processMessages username first_word search_method ms with
      | .error e => .error e
      | .ok rs =>
        .ok (match r0 with
             | some r => r :: rs
             | Option.none => rs)

/-- The conversation-id guard of lines 46-47: whether the conversation is
skipped.  The short-circuit of the source is kept: `convo.get("id")` is
evaluated only when `conversation_id` is truthy. -/
def convoSkip (conversation_id : Option String) (convo : PyVal) : Except PyErr Bool :=
  if truthyOptStr conversation_id then
    match convo.getOr "id" .pnone with
    | .error e => .error e
    | .ok idV => .ok (!idV.eqStr (conversation_id.getD ""))
  else .ok false

/-- Conversation loop body (lines 45-48 plus the message loop): skip the
conversation when a conversation id is requested and does not match. -/
def processConvo (username : String) (first_word : Option String)
    (conversation_id : Option String) (search_method : String) (convo : PyVal) :
    Except PyErr (List FilteredRecord) :=
  match convoSkip conversation_id convo with
  | .error e => .error e
  | .ok true => .ok []
  | .ok false =>
    match convo.getOr "MessageList" (.plist []) with
    | .error e => .error e
    | .ok mlV =>
      match mlV.iterate with
      | .error e => .error e
      | .ok ms => processMessages username first_word search_method ms

/-- Conversation loop: process the conversations in order. -/
def processConvos (username : String) (first_word : Option String)
    (conversation_id : Option String) (search_method : String) :
    List PyVal → Except PyErr (List FilteredRecord)
  | [] => .ok []
  | c :: cs =>
    match processConvo username first_word conversation_id search_method c with
    | .error e => .error e
    | .ok rs1 =>
      match processConvos username first_word conversation_id search_method cs with
      | .error e => .error e
      | .ok rs2 => .ok (rs1 ++ rs2)

/-- Record-collection phase of `filter_messages`: everything before the final
sort. -/
def collectRecords (data : PyVal) (username : String) (first_word : Option String)
    (conversation_id : Option String) (search_method : String) :
    Except PyErr (List FilteredRecord) :=
  match data.getOr "conversations" (.plist []) with
  | .error e => .error e
  | .ok convosV =>
    match convosV.iterate with
    | .error e => .error e
    | .ok convos => processConvos username first_word conversation_id search_method convos

/-- Lexicographic comparison of equal-length field lists, i.e. Python's
comparison of `datetime` objects on the sort keys. -/
def natListLE : List Nat → List Nat → Bool
  | [], _ => true
  | _ :: _, [] => false
  | a :: as, b :: bs => a < b || (a = b && natListLE as bs)

/-- Sort key of the final `filtered.sort`: the `datetime` field when present
(a `datetime` object is always truthy), else `datetime.min`, rendered as the
list of datetime fields. -/
def sortKey (r : FilteredRecord) : List Nat :=
  match r.datetime with
  | some d => [d.year, d.month, d.day, d.hour, d.minute, d.second, d.micro]
  | Option.none => [1, 1, 1, 0, 0, 0, 0]

/-- Comparison used by the stable ascending sort of `filter_messages`. -/
def recLE (a b : FilteredRecord) : Prop := natListLE (sortKey a) (sortKey b) = true

instance : DecidableRel recLE := fun _ _ => inferInstanceAs (Decidable (_ = true))

/-- `filtered.sort(key=...)`: Python's stable ascending sort, modelled by
insertion sort (any two stable sorts of the same total preorder agree). -/
def sortRecords (l : List FilteredRecord) : List FilteredRecord :=
  List.insertionSort recLE l

/-- `filter_messages` from `src/main.py`. -/
def filter_messages (data : PyVal) (username : String) (first_word : Option String)
    (conversation_id : Option String) (search_method : String) :
    Except PyErr (List FilteredRecord) :=
  (collectRecords data username first_word conversation_id search_method).map sortRecords

/-- `os.path.splitext` restricted to plain file names without directory
separators: split at the last dot, unless every character of the name before
that dot is itself a dot. -/
def splitext (s : String) : String × String :=
  let cs := s.toList
  let revTail := cs.reverse.takeWhile (fun c => c ≠ '.')
  if revTail.length = cs.length then (s, "")
  else
    let base := cs.take (cs.length - revTail.length - 1)
    if base.all (fun c => c = '.') then (s, "")
    else (String.mk base, String.mk ('.' :: revTail.reverse))

/-- Numbered candidate name `<base>_<k><ext>`. -/
def numberedName (base ext : String) (k : Nat) : String :=
  base ++ "_" ++ toString k ++ ext

/-- Collision loop of `get_available_filename`, with fuel bounding the number
of probes (the Python `while` is unbounded; on fuel exhaustion the model
returns `none`). -/
def availLoop (exists? : String → Bool) (base ext : String) : Nat → Nat → Option String
  | 0, _ => Option.none
  | fuel + 1, k =>
    if exists? (numberedName base ext k) then availLoop exists? base ext fuel (k + 1)
    else some (numberedName base ext k)

/-- `get_available_filename` from `src/main.py`, parameterised by the
file-existence predicate (`os.path.exists`); it only probes for existence and
performs no writes. -/
def get_available_filename (exists? : String → Bool) (fuel : Nat) (filename : String) :
    Option String :=
  if exists? filename then
    let be := splitext filename
    availLoop exists? be.1 be.2 fuel 1
  else some filename

/-- Sender after stripping the protocol tag before the first colon
(`sender.split(":", 1)[1]` when a colon occurs, the whole string
otherwise). -/
def stripSender (s : String) : String :=
  if s.toList.contains ':' then String.mk ((s.toList.dropWhile (fun c => c ≠ ':')).tail)
  else s

/-- Typed view of one archive message: each expected key is either absent or
bound to a string, matching the documented archive shape. -/
structure MsgT where
  sender? : Option String
  content? : Option String
  arrival? : Option String

/-- Typed view of one conversation. -/
structure ConvoT where
  id? : Option String
  msgs? : Option (List MsgT)

/-- Typed view of the whole archive. -/
structure ArchiveT where
  convos? : Option (List ConvoT)

/-- Encode a typed message as the dynamic dictionary `json.load` would
produce, omitting the absent keys. -/
def encodeMsg (m : MsgT) : PyVal :=
  .pdict ((m.sender?.toList.map (fun s => ("from", PyVal.pstr s))) ++
    (m.content?.toList.map (fun s => ("content", PyVal.pstr s))) ++
    (m.arrival?.toList.map (fun s => ("originalarrivaltime", PyVal.pstr s))))

/-- Encode a typed conversation as a dynamic dictionary. -/
def encodeConvo (c : ConvoT) : PyVal :=
  .pdict ((c.id?.toList.map (fun s => ("id", PyVal.pstr s))) ++
    (c.msgs?.toList.map (fun ms => ("MessageList", PyVal.plist (ms.map encodeMsg)))))

/-- Encode a typed archive as a dynamic dictionary. -/
def encodeArchive (a : ArchiveT) : PyVal :=
  .pdict (a.convos?.toList.map (fun cs => ("conversations", PyVal.plist (cs.map encodeConvo))))

/-- Raw sender value after the `get` default. -/
def MsgT.senderRaw (m : MsgT) : String := m.sender?.getD ""

/-- Raw content value after the `get` default. -/
def MsgT.contentRaw (m : MsgT) : String := m.content?.getD ""

/-- Raw timestamp value after the `get` default. -/
def MsgT.arrivalRaw (m : MsgT) : String := m.arrival?.getD "Unknown Date"

/-- The record `filter_messages` builds for a selected message. -/
def recordOfMsg (m : MsgT) : FilteredRecord :=
  ⟨fromisoformat (rstripZ m.arrivalRaw), format_date m.arrivalRaw,
    clean_content m.contentRaw⟩

/-- Typed message-loop body: mirrors `processMessage` on encoded messages. -/
def processMessageT (username : String) (first_word : Option String)
    (search_method : String) (m : MsgT) : Option FilteredRecord :=
  let sender := stripSender m.senderRaw
  let content := clean_content m.contentRaw
  let words := pyWords content
  if words.isEmpty then Option.none
  else if !(sender == username) then Option.none
  else if modeSelected first_word search_method content then some (recordOfMsg m)
  else Option.none

/-- Whether the conversation passes the conversation-id guard of lines
45-47. -/
def convoSelected (conversation_id : Option String) (c : ConvoT) : Bool :=
  if truthyOptStr conversation_id then
    match c.id? with
    | some s => s == conversation_id.getD ""
    | Option.none => false
  else true

/-- Typed record collection: the conversations passing the id guard, each
contributing its selected messages in order. -/
def collectT (a : ArchiveT) (username : String) (first_word : Option String)
    (conversation_id : Option String) (search_method : String) : List FilteredRecord :=
  ((a.convos?.getD []).filter (convoSelected conversation_id)).flatMap
    (fun c => (c.msgs?.getD []).filterMap (processMessageT username first_word search_method))

/-- The sort key of `datetime.min` (what a missing instant sorts as). -/
def minKey : List Nat := [1, 1, 1, 0, 0, 0, 0]

/-- Character list of the paired test span `<e_m x="y">hidden</e_m>`. -/
def emPairedSpan : List Char := "<e_m x=\"y\">hidden</e_m>".toList

/-- Character list of the self-closing test span `<e_m a="b"/>`. -/
def emSelfSpan : List Char := "<e_m a=\"b\"/>".toList

/-- The tail of the self-closing span after its leading `<`. -/
def emSelfTail : List Char := "e_m a=\"b\"/>".toList

/-- Concrete archive for the sorting scenario: instants arrive as
[unparseable, T2, T1] with T1 earlier than T2. -/
def sortScenarioArchive : PyVal :=
  .pdict [("conversations", .plist [
    .pdict [("id", .pstr "conv1"), ("MessageList", .plist [
      .pdict [("from", .pstr "8:alice"), ("content", .pstr "Hello A"),
        ("originalarrivaltime", .pstr "not-a-date")],
      .pdict [("from", .pstr "8:alice"), ("content", .pstr "Hello B"),
        ("originalarrivaltime", .pstr "2025-03-20T10:00:00Z")],
      .pdict [("from", .pstr "8:alice"), ("content", .pstr "Hello C"),
        ("originalarrivaltime", .pstr "2025-03-19T10:00:00Z")]])]])]

/-- Concrete archive for the first-word scenario: `"Hello there"` and
`"hello there"` from the same sender. -/
def firstWordScenarioArchive : PyVal :=
  .pdict [("conversations", .plist [
    .pdict [("id", .pstr "c"), ("MessageList", .plist [
      .pdict [("from", .pstr "8:alice"), ("content", .pstr "Hello there")],
      .pdict [("from", .pstr "8:alice"), ("content", .pstr "hello there")]])]])]

/-- Concrete archive for the review scenario of the specification. -/
def reviewScenarioArchive : PyVal :=
  .pdict [("conversations", .plist [
    .pdict [("id", .pstr "c"), ("MessageList", .plist [
      .pdict [("from", .pstr "8:alice"),
        ("content", .pstr "Great game 9/10 would play again")],
      .pdict [("from", .pstr "8:bob"), ("content", .pstr "Not interested")]])]])]

/-- Concrete archive with a rating outside 0-10. -/
def elevenScenarioArchive : PyVal :=
  .pdict [("conversations", .plist [
    .pdict [("MessageList", .plist [
      .pdict [("from", .pstr "8:alice"), ("content", .pstr "Terrible 11/10")]])]])]

/-- Concrete archive with two conversations sharing an id and one with a
different id. -/
def sharedIdArchive : PyVal :=
  .pdict [("conversations", .plist [
    .pdict [("id", .pstr "conv"), ("MessageList", .plist [
      .pdict [("from", .pstr "8:alice"), ("content", .pstr "Hello A")]])],
    .pdict [("id", .pstr "conv"), ("MessageList", .plist [
      .pdict [("from", .pstr "8:alice"), ("content", .pstr "Hello B")]])],
    .pdict [("id", .pstr "other"), ("MessageList", .plist [
      .pdict [("from", .pstr "8:alice"), ("content", .pstr "Hello C")]])]])]

/-- Concrete archive whose only message carries none of the expected keys. -/
def missingKeysArchive : PyVal :=
  .pdict [("conversations", .plist [.pdict [("MessageList", .plist [.pdict []])]])]

/-- Concrete archive whose only message lacks a timestamp. -/
def missingTimeArchive : PyVal :=
  .pdict [("conversations", .plist [
    .pdict [("MessageList", .plist [
      .pdict [("from", .pstr "8:alice"), ("content", .pstr "Hello there")]])]])]

/-- Typed one-message archive used as a witness input. -/
def typedOneMsg : ArchiveT :=
  ⟨some [⟨some "c", some [⟨some "8:alice", some "Hello there", Option.none⟩]⟩]⟩

/-- Typed one-message review archive used as a witness input. -/
def typedReviewMsg : ArchiveT :=
  ⟨some [⟨some "c",
    some [⟨some "8:alice", some "Great game 9/10 would play again", Option.none⟩]⟩]⟩

/-- Days before the first of the given month in the given year. -/
def daysBeforeMonth (y m : Nat) : Nat :=
  (match m with
   | 1 => 0 | 2 => 31 | 3 => 59 | 4 => 90 | 5 => 120 | 6 => 151
   | 7 => 181 | 8 => 212 | 9 => 243 | 10 => 273 | 11 => 304 | _ => 334) +
  (if 3 ≤ m && isLeapYear y then 1 else 0)

/-- Proleptic-Gregorian ordinal of a date, as `datetime.toordinal`
(`0001-01-01` is day 1). -/
def ordinalOfDate (y m d : Nat) : Nat :=
  365 * (y - 1) + (y - 1) / 4 - (y - 1) / 100 + (y - 1) / 400 +
    daysBeforeMonth y m + d

/-- The instant an offset-carrying `datetime` denotes, in microseconds from
the proleptic origin: what Python compares when ordering two offset-aware
values. -/
def epochMicros (d : PyDateTimeTz) : Int :=
  ((ordinalOfDate d.year d.month d.day : Int) * 86400 +
    d.hour * 3600 + d.minute * 60 + d.second) * 1000000 + d.micro -
    (d.tzoff.getD 0) * 1000000

/-- Comparison fields of a `datetime`, most significant first. -/
def fieldsOfTz (d : PyDateTimeTz) : List Nat :=
  [d.year, d.month, d.day, d.hour, d.minute, d.second, d.micro]

/-- Python's `<=` between two sort keys (the `datetime` values the lambda of
line 86 yields): field-wise for two offset-naive values, instant order for
two offset-aware values, and the `TypeError` Python raises when an
offset-aware and an offset-naive `datetime` are compared. -/
def cmpKeyLe (a b : PyDateTimeTz) : Except PyErr Bool :=
  match a.tzoff, b.tzoff with
  | Option.none, Option.none => .ok (natListLE (fieldsOfTz a) (fieldsOfTz b))
  | some _, some _ => .ok (decide (epochMicros a ≤ epochMicros b))
  | _, _ => .error .typeError

/-- A filtered record with full timestamp fidelity. -/
structure FilteredRecordTz where
  datetime : Option PyDateTimeTz
  date : String
  content : String
deriving Repr, DecidableEq

/-- `datetime.min`, the key substituted for a null instant: offset-naive. -/
def dtMinTz : PyDateTimeTz := ⟨1, 1, 1, 0, 0, 0, 0, Option.none⟩

/-- The sort key of a record: its instant, or `datetime.min` when null. -/
def keyTz (r : FilteredRecordTz) : PyDateTimeTz := r.datetime.getD dtMinTz

/-- Insert into a sorted list with the raising key comparison: the stable
placement of `List.orderedInsert`, or the first `TypeError` a comparison
raises. -/
def orderedInsertE (a : FilteredRecordTz) :
    List FilteredRecordTz → Except PyErr (List FilteredRecordTz)
  | [] => .ok [a]
  | b :: l =>
    match cmpKeyLe (keyTz a) (keyTz b) with
    | .error e => .error e
    | .ok true => .ok (a :: b :: l)
    | .ok false =>
      match orderedInsertE a l with
      | .error e => .error e
      | .ok l2 => .ok (b :: l2)

/-- Stable sort with the raising key comparison: it completes exactly when
`list.sort` would — it raises `TypeError` precisely on lists mixing
offset-aware and offset-naive keys, since inserting an element always
compares it with the head of the already-sorted rest — and on completion
returns the stable ascending order. -/
def insertionSortE : List FilteredRecordTz → Except PyErr (List FilteredRecordTz)
  | [] => .ok []
  | a :: l =>
    match insertionSortE l with
    | .error e => .error e
    | .ok l2 => orderedInsertE a l2

/-- The record built for a selected message, with full timestamp fidelity:
the stored instant keeps its UTC offset when the raw timestamp carries
one. -/
def recordOfMsgTz (m : MsgT) : FilteredRecordTz :=
  ⟨fromisoformatTz (rstripZ m.arrivalRaw), format_date m.arrivalRaw,
    clean_content m.contentRaw⟩

/-- Message-loop body with full timestamp fidelity: the selection guards of
lines 50-60 and 70-78 never inspect the instant, so selection is shared
with `processMessageT`. -/
def processMessageTzT (username : String) (first_word : Option String)
    (search_method : String) (m : MsgT) : Option FilteredRecordTz :=
  match processMessageT username first_word search_method m with
  | some _ => some (recordOfMsgTz m)
  | Option.none => Option.none

/-- Record collection with full timestamp fidelity. -/
def collectTz (a : ArchiveT) (username : String) (first_word : Option String)
    (conversation_id : Option String) (search_method : String) : List FilteredRecordTz :=
  ((a.convos?.getD []).filter (convoSelected conversation_id)).flatMap
    (fun c => (c.msgs?.getD []).filterMap
      (processMessageTzT username first_word search_method))

/-- `filter_messages` on an archive of the documented object shape, with
full timestamp fidelity: the record walk is the encoded walk (which
`collectRecords_encode` proves the dynamic walk performs without raising),
instants parse with their numeric UTC offsets, and the final sort raises
`TypeError` when its key comparisons mix offset-aware and offset-naive
`datetime` values, exactly as `filtered.sort` of line 86 does. -/
def filter_messagesTz (a : ArchiveT) (username : String) (first_word : Option String)
    (conversation_id : Option String) (search_method : String) :
    Except PyErr (List FilteredRecordTz) :=
  insertionSortE (collectTz a username first_word conversation_id search_method)

/-- No timezone designator survives the trailing-Z strip: past the date part
the timestamp has no `+`, `-`, `Z` or `z`, so in every CPython grammar it
parses to an offset-naive instant or fails to parse. -/
def naiveTimestamp (s : String) : Bool :=
  ((rstripZ s).toList.drop 10).all (fun c => !isSignCh c && c ≠ 'Z' && c ≠ 'z')

/-- Every timestamp in the archive is offset-naive in the sense of
`naiveTimestamp`. -/
def archiveNaive (a : ArchiveT) : Bool :=
  (a.convos?.getD []).all (fun c =>
    (c.msgs?.getD []).all (fun m => naiveTimestamp m.arrivalRaw))

/-- Archive of the documented shape whose two selected messages carry an
offset-aware and an offset-naive timestamp. -/
def mixedTzArchive : ArchiveT :=
  ⟨some [⟨some "c", some [
    ⟨some "8:alice", some "Hello there", some "2024-01-01T00:00:00+00:00"⟩,
    ⟨some "8:alice", some "Hello again", some "2024-01-01T00:00:00"⟩]⟩]⟩

theorem getOr_encodeMsg_from (m : MsgT) :
    (encodeMsg m).getOr "from" (.pstr "") = .ok (.pstr m.senderRaw) := by
  obtain ⟨s?, c?, t?⟩ := m
  rcases s? with _ | s <;> rcases c? with _ | c <;> rcases t? with _ | t <;> rfl

theorem getOr_encodeMsg_content (m : MsgT) :
    (encodeMsg m).getOr "content" (.pstr "") = .ok (.pstr m.contentRaw) := by
  obtain ⟨s?, c?, t?⟩ := m
  rcases s? with _ | s <;> rcases c? with _ | c <;> rcases t? with _ | t <;> rfl

theorem getOr_encodeMsg_arrival (m : MsgT) :
    (encodeMsg m).getOr "originalarrivaltime" (.pstr "Unknown Date") =
      .ok (.pstr m.arrivalRaw) := by
  obtain ⟨s?, c?, t?⟩ := m
  rcases s? with _ | s <;> rcases c? with _ | c <;> rcases t? with _ | t <;> rfl

/-- On an encoded message the sender resolution never raises and computes the
stripped sender. -/
theorem resolveSender_encodeMsg (m : MsgT) :
    resolveSender (encodeMsg m) = .ok (.pstr (stripSender m.senderRaw)) := by
  simp only [resolveSender, getOr_encodeMsg_from, bind, Except.bind, PyVal.containsColon,
    PyVal.afterColon, stripSender, pure, Except.pure, String.toList]
  split <;> rfl

/-- On an encoded message the dynamic message-loop body never raises and
agrees with the typed body. -/
theorem processMessage_encodeMsg (u : String) (fw : Option String) (sm : String) (m : MsgT) :
    processMessage u fw sm (encodeMsg m) = .ok (processMessageT u fw sm m) := by
  simp only [processMessage, processMessageT, modeSelected, resolveSender_encodeMsg,
    getOr_encodeMsg_content, getOr_encodeMsg_arrival, PyVal.cleanContent,
    PyVal.rstripZVal, PyVal.eqStr, bind, Except.bind, pure, Except.pure, recordOfMsg]
  split_ifs <;> rfl

/-- The message loop over a list of encoded messages never raises and
collects exactly the typed selections, in order. -/
theorem processMessages_encode (u : String) (fw : Option String) (sm : String)
    (ms : List MsgT) :
    processMessages u fw sm (ms.map encodeMsg) =
      .ok (ms.filterMap (processMessageT u fw sm)) := by
  induction ms with
  | nil => rfl
  | cons m ms ih =>
    simp only [List.map_cons, processMessages, processMessage_encodeMsg, ih, bind,
      Except.bind, List.filterMap_cons]
    cases processMessageT u fw sm m <;> rfl

/-- On an encoded conversation the id guard never raises and is the negation
of the typed guard. -/
theorem convoSkip_encode (cid : Option String) (c : ConvoT) :
    convoSkip cid (encodeConvo c) = .ok (!convoSelected cid c) := by
  obtain ⟨id?, ms?⟩ := c
  rcases id? with _ | i <;> rcases ms? with _ | ms <;>
    by_cases ht : truthyOptStr cid <;>
    simp [convoSkip, convoSelected, encodeConvo, PyVal.getOr, PyVal.eqStr, ht,
      Option.toList]

/-- The conversation body on an encoded conversation never raises; it yields
the conversation's selections when the id guard passes and nothing
otherwise. -/
theorem processConvo_encode (u : String) (fw cid : Option String) (sm : String) (c : ConvoT) :
    processConvo u fw cid sm (encodeConvo c) =
      .ok (if convoSelected cid c then
        (c.msgs?.getD []).filterMap (processMessageT u fw sm) else []) := by
  rw [processConvo, convoSkip_encode]
  by_cases hsel : convoSelected cid c
  · obtain ⟨id?, ms?⟩ := c
    rcases id? with _ | i <;> rcases ms? with _ | ms <;>
      simp_all [encodeConvo, PyVal.getOr, PyVal.iterate, processMessages_encode,
        Option.toList] <;> rfl
  · simp [hsel]

/-- The conversation loop over encoded conversations never raises and
concatenates the selections of the guard-passing conversations. -/
theorem processConvos_encode (u : String) (fw cid : Option String) (sm : String)
    (cs : List ConvoT) :
    processConvos u fw cid sm (cs.map encodeConvo) =
      .ok ((cs.filter (convoSelected cid)).flatMap
        (fun c => (c.msgs?.getD []).filterMap (processMessageT u fw sm))) := by
  induction cs with
  | nil => rfl
  | cons c cs ih =>
    simp only [List.map_cons, processConvos, processConvo_encode, ih, bind, Except.bind,
      List.filter_cons]
    by_cases h : convoSelected cid c <;> simp [h, pure, Except.pure]

/-- Record collection on an encoded archive never raises and equals the typed
collection. -/
theorem collectRecords_encode (a : ArchiveT) (u : String) (fw cid : Option String)
    (sm : String) :
    collectRecords (encodeArchive a) u fw cid sm = .ok (collectT a u fw cid sm) := by
  rcases a with ⟨_ | cs⟩
  · rfl
  · simp [collectRecords, encodeArchive, collectT, PyVal.getOr, PyVal.iterate,
      processConvos_encode, bind, Except.bind, Option.getD, Option.toList]

/-- `filter_messages` on an encoded archive never raises: it returns the
sorted typed collection. -/
theorem filter_messages_encode (a : ArchiveT) (u : String) (fw cid : Option String)
    (sm : String) :
    filter_messages (encodeArchive a) u fw cid sm =
      .ok (sortRecords (collectT a u fw cid sm)) := by
  simp [filter_messages, collectRecords_encode a u fw cid sm, Except.map]

theorem natListLE_refl : ∀ l : List Nat, natListLE l l = true
  | [] => rfl
  | a :: as => by simp [natListLE, natListLE_refl as]

theorem natListLE_total : ∀ l₁ l₂ : List Nat, natListLE l₁ l₂ = true ∨ natListLE l₂ l₁ = true
  | [], _ => .inl rfl
  | _ :: _, [] => .inr rfl
  | a :: as, b :: bs => by
    rcases Nat.lt_trichotomy a b with h | h | h
    · left; simp [natListLE, h]
    · subst h
      rcases natListLE_total as bs with h2 | h2
      · left; simp [natListLE, h2]
      · right; simp [natListLE, h2]
    · right; simp [natListLE, h]

theorem natListLE_trans : ∀ (l₁ l₂ l₃ : List Nat), natListLE l₁ l₂ = true →
    natListLE l₂ l₃ = true → natListLE l₁ l₃ = true := by
  intro l₁
  induction l₁ with
  | nil => intro _ _ _ _; rfl
  | cons a as ih =>
    intro l₂ l₃ h12 h23
    cases l₂ with
    | nil => simp [natListLE] at h12
    | cons b bs =>
      cases l₃ with
      | nil => simp [natListLE] at h23
      | cons c cs =>
        simp only [natListLE, Bool.or_eq_true, Bool.and_eq_true, decide_eq_true_eq]
          at h12 h23 ⊢
        rcases h12 with h | ⟨hab, h12⟩ <;> rcases h23 with h' | ⟨hbc, h23⟩
        · left; omega
        · left; omega
        · left; omega
        · exact .inr ⟨by omega, ih bs cs h12 h23⟩

instance : IsTotal FilteredRecord recLE :=
  ⟨fun a b => natListLE_total (sortKey a) (sortKey b)⟩

instance : IsTrans FilteredRecord recLE :=
  ⟨fun a b c h1 h2 => natListLE_trans (sortKey a) (sortKey b) (sortKey c) h1 h2⟩

/-- The sort phase always produces a list sorted ascending by the Python sort
key (parsed instant, with a missing instant as `datetime.min`). -/
theorem sortRecords_sorted (l : List FilteredRecord) : List.Sorted recLE (sortRecords l) :=
  List.sorted_insertionSort recLE l

theorem mem_sortRecords {r : FilteredRecord} {l : List FilteredRecord} :
    r ∈ sortRecords l ↔ r ∈ l :=
  List.mem_insertionSort recLE

theorem sortRecords_perm (l : List FilteredRecord) : (sortRecords l).Perm l :=
  List.perm_insertionSort recLE l

theorem filter_orderedInsert_eqKey (k : List Nat) (a : FilteredRecord)
    (l : List FilteredRecord) (ha : sortKey a = k) :
    (List.orderedInsert recLE a l).filter (fun r => sortKey r == k) =
      a :: l.filter (fun r => sortKey r == k) := by
  induction l with
  | nil => simp [List.orderedInsert, List.filter_cons, beq_iff_eq, ha]
  | cons b bs ih =>
    by_cases h : recLE a b
    · simp [List.orderedInsert, h, List.filter_cons, beq_iff_eq, ha]
    · have hbk : ¬(sortKey b = k) := by
        intro hbk
        exact h (show natListLE (sortKey a) (sortKey b) = true by
          rw [ha, hbk]; exact natListLE_refl k)
      simp [List.orderedInsert, h, List.filter_cons, beq_iff_eq, hbk, ih]

theorem filter_orderedInsert_neKey (k : List Nat) (a : FilteredRecord)
    (l : List FilteredRecord) (ha : ¬(sortKey a = k)) :
    (List.orderedInsert recLE a l).filter (fun r => sortKey r == k) =
      l.filter (fun r => sortKey r == k) := by
  induction l with
  | nil => simp [List.orderedInsert, List.filter_cons, beq_iff_eq, ha]
  | cons b bs ih =>
    by_cases h : recLE a b <;>
      simp [List.orderedInsert, h, List.filter_cons, beq_iff_eq, ha, ih]

theorem sortRecords_cons (a : FilteredRecord) (l : List FilteredRecord) :
    sortRecords (a :: l) = List.orderedInsert recLE a (sortRecords l) := rfl

/-- Stability of the sort phase: for each sort key, the records carrying that
key appear in the output in exactly their input order. -/
theorem sortRecords_stable (l : List FilteredRecord) (k : List Nat) :
    (sortRecords l).filter (fun r => sortKey r == k) =
      l.filter (fun r => sortKey r == k) := by
  induction l with
  | nil => rfl
  | cons a l ih =>
    rw [sortRecords_cons]
    by_cases ha : sortKey a = k
    · rw [filter_orderedInsert_eqKey k a _ ha, ih]
      simp [List.filter_cons, beq_iff_eq, ha]
    · rw [filter_orderedInsert_neKey k a _ ha, ih]
      simp [List.filter_cons, beq_iff_eq, ha]

theorem pySplitGo_ne_nil : ∀ (fuel : Nat) (cs : List Char) (t : List Char),
    t ∈ pySplitGo fuel cs → t ≠ [] := by
  intro fuel
  induction fuel with
  | zero => intro cs t h; simp [pySplitGo] at h
  | succ fuel ih =>
    intro cs t h
    cases cs with
    | nil => simp [pySplitGo] at h
    | cons c cs =>
      by_cases hsp : isPySpace c
      · exact ih cs t (by simpa [pySplitGo, hsp] using h)
      · simp only [pySplitGo, hsp, Bool.false_eq_true, if_false, List.mem_cons] at h
        rcases h with rfl | h
        · simp
        · exact ih _ t h

/-- Every token produced by the whitespace split is a nonempty string. -/
theorem mem_pyWords_ne_empty {s t : String} (h : t ∈ pyWords s) : t ≠ "" := by
  simp only [pyWords, List.mem_map] at h
  obtain ⟨tok, htok, rfl⟩ := h
  have := pySplitGo_ne_nil _ _ _ htok
  intro hcon
  exact this (by simpa [String.mk] using congrArg String.toList hcon)

/-- Only fully validated dates come out of the full timestamp parser: year,
month and day are at least 1. -/
theorem fromisoformatTz_some_valid {s : String} {d : PyDateTimeTz}
    (h : fromisoformatTz s = some d) : 1 ≤ d.year ∧ 1 ≤ d.month ∧ 1 ≤ d.day := by
  unfold fromisoformatTz at h
  split at h
  · split at h
    · split at h
      · split at h
        · rename_i hrange
          cases h
          exact ⟨hrange.1, hrange.2.1, hrange.2.2.2.1⟩
        · cases h
      · cases h
    · cases h
  · cases h

/-- Only fully validated dates come out of the timestamp parser: year, month
and day are at least 1. -/
theorem fromisoformat_some_valid {s : String} {d : PyDateTime}
    (h : fromisoformat s = some d) : 1 ≤ d.year ∧ 1 ≤ d.month ∧ 1 ≤ d.day := by
  unfold fromisoformat at h
  split at h
  · split at h
    · rename_i dtz heq _ _
      cases h
      exact fromisoformatTz_some_valid heq
    · cases h
  · cases h

/-- A missing instant sorts below every record whose instant came out of the
parser. -/
theorem minKey_le_sortKey (r : FilteredRecord)
    (h : ∀ d, r.datetime = some d → 1 ≤ d.year ∧ 1 ≤ d.month ∧ 1 ≤ d.day) :
    natListLE minKey (sortKey r) = true := by
  cases hd : r.datetime with
  | none => simp only [sortKey, hd, minKey]; exact natListLE_refl _
  | some d =>
    obtain ⟨h1, h2, h3⟩ := h d hd
    simp [sortKey, hd, minKey, natListLE]
    omega

/-- Characterisation of typed selection: a record is produced exactly when
the normalised content has tokens, the stripped sender matches, and the mode
predicate holds; the record is then the normalised one. -/
theorem processMessageT_some_iff (u : String) (fw : Option String) (sm : String)
    (m : MsgT) (r : FilteredRecord) :
    processMessageT u fw sm m = some r ↔
      (pyWords (clean_content m.contentRaw) ≠ [] ∧
       stripSender m.senderRaw = u ∧
       modeSelected fw sm (clean_content m.contentRaw) = true ∧
       r = recordOfMsg m) := by
  constructor
  · intro h
    unfold processMessageT at h
    by_cases h1 : (pyWords (clean_content m.contentRaw)).isEmpty
    · rw [if_pos h1] at h; cases h
    · rw [if_neg h1] at h
      by_cases h2 : stripSender m.senderRaw == u
      · rw [if_neg (by simp [h2])] at h
        by_cases h3 : modeSelected fw sm (clean_content m.contentRaw)
        · rw [if_pos h3] at h
          cases h
          exact ⟨by simpa [List.isEmpty_iff] using h1, by simpa using h2, h3, rfl⟩
        · rw [if_neg h3] at h; cases h
      · rw [if_pos (by simp [h2])] at h; cases h
  · rintro ⟨h1, h2, h3, rfl⟩
    unfold processMessageT
    rw [if_neg (by simpa [List.isEmpty_iff] using h1), if_neg (by simp [h2]), if_pos h3]

/-- Membership in the typed collection, unfolded to a message-level
witness. -/
theorem mem_collectT (a : ArchiveT) (u : String) (fw cid : Option String) (sm : String)
    (r : FilteredRecord) :
    r ∈ collectT a u fw cid sm ↔
      ∃ c ∈ a.convos?.getD [], convoSelected cid c = true ∧
        ∃ m ∈ c.msgs?.getD [], processMessageT u fw sm m = some r := by
  simp only [collectT, List.mem_flatMap, List.mem_filter, List.mem_filterMap, and_assoc]

/-- Inversion of the dynamic message body: an emitted record was selected
with a matching resolved sender and token-bearing content. -/
theorem processMessage_ok_some {u : String} {fw : Option String} {sm : String}
    {msg : PyVal} {r : FilteredRecord}
    (h : processMessage u fw sm msg = .ok (some r)) :
    (∃ v, resolveSender msg = .ok v ∧ v.eqStr u = true) ∧
      (pyWords r.content).isEmpty = false := by
  unfold processMessage at h
  split at h
  · exact absurd h (by simp)
  · rename_i sender hs
    split at h
    · exact absurd h (by simp)
    · rename_i contentV hcv
      split at h
      · exact absurd h (by simp)
      · rename_i content hcc
        by_cases hw : (pyWords content).isEmpty
        · rw [if_pos hw] at h
          exact absurd h (by simp)
        · rw [if_neg (by simp [hw])] at h
          by_cases he : sender.eqStr u
          · rw [if_neg (by simp [he])] at h
            split at h
            · exact absurd h (by simp)
            · rename_i isoV hiso
              split at h
              · exact absurd h (by simp)
              · rename_i isoStr hrs
                by_cases hsel : modeSelected fw sm content
                · rw [if_pos hsel] at h
                  simp only [Except.ok.injEq, Option.some.injEq] at h
                  refine ⟨⟨sender, hs, he⟩, ?_⟩
                  rw [← h]
                  simpa using hw
                · rw [if_neg hsel] at h
                  exact absurd h (by simp)
          · rw [if_pos (by simp [he])] at h
            exact absurd h (by simp)

theorem mem_processMessages {u : String} {fw : Option String} {sm : String} :
    ∀ {ms : List PyVal} {rs : List FilteredRecord},
      processMessages u fw sm ms = .ok rs → ∀ {r}, r ∈ rs →
        ∃ m ∈ ms, processMessage u fw sm m = .ok (some r) := by
  intro ms
  induction ms with
  | nil =>
    intro rs h r hr
    cases h
    cases hr
  | cons m ms ih =>
    intro rs h r hr
    unfold processMessages at h
    split at h
    · cases h
    · rename_i r0 hp
      split at h
      · cases h
      · rename_i rs2 hq
        cases h
        cases r0 with
        | some r1 =>
          rcases List.mem_cons.mp hr with rfl | hr2
          · exact ⟨m, List.mem_cons_self m ms, hp⟩
          · obtain ⟨m2, hm2, hpm⟩ := ih hq hr2
            exact ⟨m2, List.mem_cons_of_mem _ hm2, hpm⟩
        | none =>
          obtain ⟨m2, hm2, hpm⟩ := ih hq hr
          exact ⟨m2, List.mem_cons_of_mem _ hm2, hpm⟩

theorem mem_processConvo {u : String} {fw cid : Option String} {sm : String}
    {convo : PyVal} {rs : List FilteredRecord}
    (h : processConvo u fw cid sm convo = .ok rs) {r : FilteredRecord} (hr : r ∈ rs) :
    ∃ m, processMessage u fw sm m = .ok (some r) := by
  unfold processConvo at h
  split at h
  · cases h
  · cases h
    cases hr
  · split at h
    · cases h
    · rename_i mlV hml
      split at h
      · cases h
      · obtain ⟨m, _, hm⟩ := mem_processMessages h hr
        exact ⟨m, hm⟩

theorem mem_processConvos {u : String} {fw cid : Option String} {sm : String} :
    ∀ {cs : List PyVal} {rs : List FilteredRecord},
      processConvos u fw cid sm cs = .ok rs → ∀ {r}, r ∈ rs →
        ∃ m, processMessage u fw sm m = .ok (some r) := by
  intro cs
  induction cs with
  | nil =>
    intro rs h r hr
    cases h
    cases hr
  | cons c cs ih =>
    intro rs h r hr
    unfold processConvos at h
    split at h
    · cases h
    · rename_i rs1 h1
      split at h
      · cases h
      · rename_i rs2 h2
        cases h
        rcases List.mem_append.mp hr with hr1 | hr2
        · exact mem_processConvo h1 hr1
        · exact ih h2 hr2

theorem mem_collectRecords {data : PyVal} {u : String} {fw cid : Option String}
    {sm : String} {rs : List FilteredRecord}
    (h : collectRecords data u fw cid sm = .ok rs) {r : FilteredRecord} (hr : r ∈ rs) :
    ∃ m, processMessage u fw sm m = .ok (some r) := by
  unfold collectRecords at h
  split at h
  · cases h
  · split at h
    · cases h
    · exact mem_processConvos h hr

/-- Every record of a successful run was emitted by the message body for some
message value. -/
theorem mem_filter_messages {data : PyVal} {u : String} {fw cid : Option String}
    {sm : String} {res : List FilteredRecord}
    (h : filter_messages data u fw cid sm = .ok res) {r : FilteredRecord} (hr : r ∈ res) :
    ∃ m, processMessage u fw sm m = .ok (some r) := by
  unfold filter_messages at h
  cases hcol : collectRecords data u fw cid sm with
  | error e =>
    rw [hcol] at h
    cases h
  | ok pre =>
    rw [hcol] at h
    simp only [Except.map] at h
    cases h
    exact mem_collectRecords hcol (mem_sortRecords.mp hr)

/-- A message whose resolved sender does not compare equal to the target is
never selected. -/
theorem processMessage_sender_mismatch {u : String} {fw : Option String} {sm : String}
    {msg : PyVal} {v : PyVal} (hv : resolveSender msg = .ok v) (hne : v.eqStr u = false) :
    ∀ r, processMessage u fw sm msg ≠ .ok (some r) := by
  intro r h
  obtain ⟨⟨v2, hv2, he2⟩, _⟩ := processMessage_ok_some h
  rw [hv] at hv2
  cases hv2
  rw [hne] at he2
  cases he2

theorem string_mk_toList (s : String) : String.mk s.toList = s := rfl

theorem unescapeGo_no_amp : ∀ (fuel : Nat) (cs : List Char),
    (∀ c ∈ cs, c ≠ '&') → unescapeGo fuel cs = cs := by
  intro fuel
  induction fuel with
  | zero => intro cs _; rfl
  | succ fuel ih =>
    intro cs h
    cases cs with
    | nil => rfl
    | cons c rest =>
      unfold unescapeGo
      rw [if_neg (h c (List.mem_cons_self c rest))]
      rw [ih rest (fun d hd => h d (List.mem_cons_of_mem _ hd))]

/-- The entity decoder leaves strings without `&` unchanged. -/
theorem unescapeChars_no_amp (cs : List Char) (h : ∀ c ∈ cs, c ≠ '&') :
    unescapeChars cs = cs :=
  unescapeGo_no_amp _ cs h

theorem matchEmPaired_ne_lt {c : Char} (hc : c ≠ '<') (cs : List Char) :
    matchEmPaired (c :: cs) = none := by
  have h4 : ¬((c :: cs).take 4 = ['<', 'e', '_', 'm']) := by
    rw [List.take_succ_cons]
    intro hx
    injection hx with h1 _
    exact hc h1
  unfold matchEmPaired
  rw [if_neg h4]

theorem matchEmSelf_ne_lt {c : Char} (hc : c ≠ '<') (cs : List Char) :
    matchEmSelf (c :: cs) = none := by
  have h4 : ¬((c :: cs).take 4 = ['<', 'e', '_', 'm']) := by
    rw [List.take_succ_cons]
    intro hx
    injection hx with h1 _
    exact hc h1
  unfold matchEmSelf
  rw [if_neg h4]

theorem findEmClose_no_lt : ∀ (cs : List Char), (∀ c ∈ cs, c ≠ '<') →
    findEmClose cs = none := by
  intro cs
  induction cs with
  | nil => intro _; rfl
  | cons c rest ih =>
    intro h
    have h6 : ¬((c :: rest).take 6 = ['<', '/', 'e', '_', 'm', '>']) := by
      rw [List.take_succ_cons]
      intro hx
      injection hx with h1 _
      exact h c (List.mem_cons_self c rest) h1
    unfold findEmClose
    rw [if_neg h6]
    by_cases hn : c = '\n'
    · rw [if_pos hn]
    · rw [if_neg hn]
      exact ih (fun d hd => h d (List.mem_cons_of_mem _ hd))

theorem subEmPairedGo_cons_none {c : Char} {cs : List Char} {fuel : Nat}
    (h : matchEmPaired (c :: cs) = none) :
    subEmPairedGo (fuel + 1) (c :: cs) = c :: subEmPairedGo fuel cs := by
  rw [subEmPairedGo, h]

theorem subEmPairedGo_cons_some {c : Char} {cs rest : List Char} {fuel : Nat}
    (h : matchEmPaired (c :: cs) = some rest) :
    subEmPairedGo (fuel + 1) (c :: cs) = subEmPairedGo fuel rest := by
  rw [subEmPairedGo, h]

theorem subEmSelfGo_cons_none {c : Char} {cs : List Char} {fuel : Nat}
    (h : matchEmSelf (c :: cs) = none) :
    subEmSelfGo (fuel + 1) (c :: cs) = c :: subEmSelfGo fuel cs := by
  rw [subEmSelfGo, h]

theorem subEmSelfGo_cons_some {c : Char} {cs rest : List Char} {fuel : Nat}
    (h : matchEmSelf (c :: cs) = some rest) :
    subEmSelfGo (fuel + 1) (c :: cs) = subEmSelfGo fuel rest := by
  rw [subEmSelfGo, h]

theorem subEmPairedGo_no_lt : ∀ (fuel : Nat) (cs : List Char),
    (∀ c ∈ cs, c ≠ '<') → subEmPairedGo fuel cs = cs := by
  intro fuel
  induction fuel with
  | zero => intro cs _; rfl
  | succ fuel ih =>
    intro cs h
    cases cs with
    | nil => rfl
    | cons c rest =>
      rw [subEmPairedGo_cons_none (matchEmPaired_ne_lt (h c (List.mem_cons_self c rest)) rest)]
      rw [ih rest (fun d hd => h d (List.mem_cons_of_mem _ hd))]

theorem subEmSelfGo_no_lt : ∀ (fuel : Nat) (cs : List Char),
    (∀ c ∈ cs, c ≠ '<') → subEmSelfGo fuel cs = cs := by
  intro fuel
  induction fuel with
  | zero => intro cs _; rfl
  | succ fuel ih =>
    intro cs h
    cases cs with
    | nil => rfl
    | cons c rest =>
      rw [subEmSelfGo_cons_none (matchEmSelf_ne_lt (h c (List.mem_cons_self c rest)) rest)]
      rw [ih rest (fun d hd => h d (List.mem_cons_of_mem _ hd))]

theorem subEmPairedGo_append : ∀ (pre : List Char) (fuel : Nat) (rest : List Char),
    (∀ c ∈ pre, c ≠ '<') →
    subEmPairedGo (pre.length + fuel) (pre ++ rest) = pre ++ subEmPairedGo fuel rest := by
  intro pre
  induction pre with
  | nil => intro fuel rest _; simp
  | cons c pre ih =>
    intro fuel rest h
    have hlen : (c :: pre).length + fuel = (pre.length + fuel) + 1 := by
      simp [List.length_cons]
      omega
    rw [hlen]
    show subEmPairedGo ((pre.length + fuel) + 1) (c :: (pre ++ rest)) = _
    rw [subEmPairedGo_cons_none (matchEmPaired_ne_lt (h c (List.mem_cons_self c pre)) _)]
    rw [ih fuel rest (fun d hd => h d (List.mem_cons_of_mem _ hd))]
    rfl

theorem subEmSelfGo_append : ∀ (pre : List Char) (fuel : Nat) (rest : List Char),
    (∀ c ∈ pre, c ≠ '<') →
    subEmSelfGo (pre.length + fuel) (pre ++ rest) = pre ++ subEmSelfGo fuel rest := by
  intro pre
  induction pre with
  | nil => intro fuel rest _; simp
  | cons c pre ih =>
    intro fuel rest h
    have hlen : (c :: pre).length + fuel = (pre.length + fuel) + 1 := by
      simp [List.length_cons]
      omega
    rw [hlen]
    show subEmSelfGo ((pre.length + fuel) + 1) (c :: (pre ++ rest)) = _
    rw [subEmSelfGo_cons_none (matchEmSelf_ne_lt (h c (List.mem_cons_self c pre)) _)]
    rw [ih fuel rest (fun d hd => h d (List.mem_cons_of_mem _ hd))]
    rfl

theorem dropOneZ_eq_dropAllZ (r : List Char)
    (h : (r.takeWhile (fun c => c = 'Z')).length ≤ 1) :
    (if r.head? = some 'Z' then r.tail else r) = r.dropWhile (fun c => c = 'Z') := by
  cases r with
  | nil => simp
  | cons c rest =>
    by_cases hc : c = 'Z'
    · subst hc
      simp only [List.head?_cons, List.tail_cons, if_pos, List.dropWhile_cons,
        decide_True, if_true]
      rw [List.takeWhile_cons] at h
      simp only [decide_True, if_true, List.length_cons] at h
      have hrest : rest.takeWhile (fun c => decide (c = 'Z')) = [] :=
        List.eq_nil_of_length_eq_zero (by omega)
      cases hr2 : rest with
      | nil => rfl
      | cons d rest2 =>
        subst hr2
        by_cases hd : d = 'Z'
        · rw [List.takeWhile_cons] at hrest
          simp [hd] at hrest
        · rw [List.dropWhile_cons]
          simp [hd]
    · rw [List.dropWhile_cons]
      simp [hc]

/-- With at most one trailing `Z`, removing one trailing `Z` (the display
path) and removing every trailing `Z` (the instant path) agree. -/
theorem stripOneZ_eq_rstripZ (s : String)
    (h : (s.toList.reverse.takeWhile (fun c => c = 'Z')).length ≤ 1) :
    stripOneZ s = rstripZ s := by
  have key := dropOneZ_eq_dropAllZ s.toList.reverse h
  unfold stripOneZ rstripZ
  by_cases hz : s.toList.getLast? = some 'Z'
  · rw [if_pos hz]
    rw [if_pos (by simpa using hz)] at key
    rw [← key, List.tail_reverse, List.reverse_reverse]
  · rw [if_neg hz]
    rw [if_neg (by simpa using hz)] at key
    rw [← key, List.reverse_reverse]
    exact (string_mk_toList s).symm

theorem matchEmPaired_span (suf : List Char) :
    matchEmPaired (emPairedSpan ++ suf) = some suf := rfl

theorem matchEmSelf_span (suf : List Char) :
    matchEmSelf (emSelfSpan ++ suf) = some suf := rfl

theorem matchEmPaired_selfSpan (suf : List Char) :
    matchEmPaired (emSelfSpan ++ suf) = findEmClose suf := rfl

/-- The paired-pattern scan deletes exactly the paired span and leaves a
markup-free suffix untouched. -/
theorem subEmPairedGo_span (suf : List Char) (hs : ∀ c ∈ suf, c ≠ '<') (fuel : Nat) :
    subEmPairedGo (fuel + 1) (emPairedSpan ++ suf) = suf := by
  have hm : matchEmPaired ('<' :: ("e_m x=\"y\">hidden</e_m>".toList ++ suf)) = some suf :=
    matchEmPaired_span suf
  show subEmPairedGo (fuel + 1) ('<' :: ("e_m x=\"y\">hidden</e_m>".toList ++ suf)) = suf
  rw [subEmPairedGo_cons_some hm]
  exact subEmPairedGo_no_lt fuel suf hs

/-- The paired-pattern scan does not touch the self-closing span when the
suffix carries no markup (there is no closing tag for it to pair with). -/
theorem subEmPairedGo_selfSpan (suf : List Char) (hs : ∀ c ∈ suf, c ≠ '<') (fuel : Nat) :
    subEmPairedGo (fuel + 1) (emSelfSpan ++ suf) = emSelfSpan ++ suf := by
  have hm : matchEmPaired ('<' :: (emSelfTail ++ suf)) = none := by
    have := matchEmPaired_selfSpan suf
    rw [findEmClose_no_lt suf hs] at this
    exact this
  show subEmPairedGo (fuel + 1) ('<' :: (emSelfTail ++ suf)) = emSelfSpan ++ suf
  rw [subEmPairedGo_cons_none hm]
  rw [subEmPairedGo_no_lt fuel (emSelfTail ++ suf)]
  · rfl
  · have hTail : ∀ c ∈ emSelfTail, c ≠ '<' := by decide
    intro c hc
    rcases List.mem_append.mp hc with h1 | h2
    · exact hTail c h1
    · exact hs c h2

/-- The self-closing scan deletes exactly the self-closing tag. -/
theorem subEmSelfGo_span (suf : List Char) (hs : ∀ c ∈ suf, c ≠ '<') (fuel : Nat) :
    subEmSelfGo (fuel + 1) (emSelfSpan ++ suf) = suf := by
  have hm : matchEmSelf ('<' :: (emSelfTail ++ suf)) = some suf :=
    matchEmSelf_span suf
  show subEmSelfGo (fuel + 1) ('<' :: (emSelfTail ++ suf)) = suf
  rw [subEmSelfGo_cons_some hm]
  exact subEmSelfGo_no_lt fuel suf hs

theorem string_toList_append (a b : String) : (a ++ b).toList = a.toList ++ b.toList := rfl

/-- Inserting the paired span `<e_m x="y">hidden</e_m>` between two
markup-free strings: the normaliser removes the whole span, text included. -/
theorem clean_content_paired (pre suf : String)
    (hp : ∀ c ∈ pre.toList, c ≠ '&' ∧ c ≠ '<')
    (hs : ∀ c ∈ suf.toList, c ≠ '&' ∧ c ≠ '<') :
    clean_content (pre ++ "<e_m x=\"y\">hidden</e_m>" ++ suf) = pre ++ suf := by
  have hPairedAmp : ∀ c ∈ emPairedSpan, c ≠ '&' := by decide
  have hL : (pre ++ "<e_m x=\"y\">hidden</e_m>" ++ suf).toList
      = pre.toList ++ (emPairedSpan ++ suf.toList) := by
    rw [string_toList_append, string_toList_append, List.append_assoc]
    rfl
  unfold clean_content
  rw [hL]
  have hampL : ∀ c ∈ pre.toList ++ (emPairedSpan ++ suf.toList), c ≠ '&' := by
    intro c hc
    rcases List.mem_append.mp hc with h1 | h2
    · exact (hp c h1).1
    · rcases List.mem_append.mp h2 with h3 | h4
      · exact hPairedAmp c h3
      · exact (hs c h4).1
  rw [unescapeChars_no_amp _ hampL]
  rw [subEmPaired]
  have hlen1 : (pre.toList ++ (emPairedSpan ++ suf.toList)).length
      = pre.toList.length + ((22 + suf.toList.length) + 1) := by
    rw [List.length_append, List.length_append]
    have h23 : emPairedSpan.length = 23 := by decide
    omega
  rw [hlen1]
  rw [subEmPairedGo_append _ _ _ (fun c hc => (hp c hc).2)]
  rw [subEmPairedGo_span _ (fun c hc => (hs c hc).2) _]
  rw [subEmSelf]
  rw [show (pre.toList ++ suf.toList).length = pre.toList.length + suf.toList.length
    from List.length_append _ _]
  rw [subEmSelfGo_append _ _ _ (fun c hc => (hp c hc).2)]
  rw [subEmSelfGo_no_lt _ _ (fun c hc => (hs c hc).2)]
  rfl

/-- Inserting the self-closing span `<e_m a="b"/>` between two markup-free
strings: the normaliser removes only the tag. -/
theorem clean_content_selfClosing (pre suf : String)
    (hp : ∀ c ∈ pre.toList, c ≠ '&' ∧ c ≠ '<')
    (hs : ∀ c ∈ suf.toList, c ≠ '&' ∧ c ≠ '<') :
    clean_content (pre ++ "<e_m a=\"b\"/>" ++ suf) = pre ++ suf := by
  have hSelfAmp : ∀ c ∈ emSelfSpan, c ≠ '&' := by decide
  have hL : (pre ++ "<e_m a=\"b\"/>" ++ suf).toList
      = pre.toList ++ (emSelfSpan ++ suf.toList) := by
    rw [string_toList_append, string_toList_append, List.append_assoc]
    rfl
  unfold clean_content
  rw [hL]
  have hampL : ∀ c ∈ pre.toList ++ (emSelfSpan ++ suf.toList), c ≠ '&' := by
    intro c hc
    rcases List.mem_append.mp hc with h1 | h2
    · exact (hp c h1).1
    · rcases List.mem_append.mp h2 with h3 | h4
      · exact hSelfAmp c h3
      · exact (hs c h4).1
  rw [unescapeChars_no_amp _ hampL]
  rw [subEmPaired]
  have hlen1 : (pre.toList ++ (emSelfSpan ++ suf.toList)).length
      = pre.toList.length + ((11 + suf.toList.length) + 1) := by
    rw [List.length_append, List.length_append]
    have h12 : emSelfSpan.length = 12 := by decide
    omega
  rw [hlen1]
  rw [subEmPairedGo_append _ _ _ (fun c hc => (hp c hc).2)]
  rw [subEmPairedGo_selfSpan _ (fun c hc => (hs c hc).2) _]
  rw [subEmSelf]
  have hlen2 : (pre.toList ++ (emSelfSpan ++ suf.toList)).length
      = pre.toList.length + ((11 + suf.toList.length) + 1) := hlen1
  rw [hlen2]
  rw [subEmSelfGo_append _ _ _ (fun c hc => (hp c hc).2)]
  rw [subEmSelfGo_span _ (fun c hc => (hs c hc).2) _]
  rfl

/-- Every record collected from an encoded archive sorts at or above
`datetime.min`: its instant, when present, came out of the validating
parser. -/
theorem collectT_minKey (a : ArchiveT) (u : String) (fw cid : Option String) (sm : String) :
    ∀ r ∈ collectT a u fw cid sm, natListLE minKey (sortKey r) = true := by
  intro r hr
  rw [mem_collectT] at hr
  obtain ⟨c, _, _, m, _, hm⟩ := hr
  rw [processMessageT_some_iff] at hm
  obtain ⟨_, _, _, rfl⟩ := hm
  apply minKey_le_sortKey
  intro d hd
  exact fromisoformat_some_valid (show fromisoformat (rstripZ m.arrivalRaw) = some d from hd)

theorem modeSelected_first_word (w content : String) :
    modeSelected (some w) "first_word" content =
      (!w.isEmpty && (pyWords content).head? == some w) := rfl

theorem modeSelected_review (fw : Option String) (content : String) :
    modeSelected fw "review" content = searchRating content := rfl

/-- First-word mode selects exactly the messages whose stripped sender is the
target and whose first token is the word. -/
theorem processMessageT_first_word_iff (u w : String) (m : MsgT) (r : FilteredRecord) :
    processMessageT u (some w) "first_word" m = some r ↔
      (stripSender m.senderRaw = u ∧
       (pyWords (clean_content m.contentRaw)).head? = some w ∧
       r = recordOfMsg m) := by
  rw [processMessageT_some_iff]
  constructor
  · rintro ⟨_, hsu, hsel, hr⟩
    rw [modeSelected_first_word] at hsel
    simp only [Bool.and_eq_true, beq_iff_eq] at hsel
    exact ⟨hsu, hsel.2, hr⟩
  · rintro ⟨hsu, hhead, hr⟩
    have hmem : w ∈ pyWords (clean_content m.contentRaw) := by
      cases hwd : pyWords (clean_content m.contentRaw) with
      | nil => rw [hwd] at hhead; cases hhead
      | cons t ts =>
        rw [hwd] at hhead
        simp only [List.head?_cons, Option.some.injEq] at hhead
        rw [hhead]
        exact List.mem_cons_self w ts
    have hne := mem_pyWords_ne_empty hmem
    refine ⟨?_, hsu, ?_, hr⟩
    · intro hnil
      rw [hnil] at hhead
      cases hhead
    · rw [modeSelected_first_word]
      have hw : w.isEmpty = false := by
        cases hwe : w.isEmpty
        · rfl
        · exact absurd ((String.isEmpty_iff w).mp hwe) hne
      simp [hhead, hw]

/-- Review mode selects exactly the messages from the target sender with
token-bearing content matching the rating pattern. -/
theorem processMessageT_review_iff (u : String) (fw : Option String) (m : MsgT)
    (r : FilteredRecord) :
    processMessageT u fw "review" m = some r ↔
      (stripSender m.senderRaw = u ∧
       pyWords (clean_content m.contentRaw) ≠ [] ∧
       searchRating (clean_content m.contentRaw) = true ∧
       r = recordOfMsg m) := by
  rw [processMessageT_some_iff]
  constructor
  · rintro ⟨hw, hsu, hsel, hr⟩
    rw [modeSelected_review] at hsel
    exact ⟨hsu, hw, hsel, hr⟩
  · rintro ⟨hsu, hw, hsel, hr⟩
    refine ⟨hw, hsu, ?_, hr⟩
    rw [modeSelected_review]
    exact hsel

/-- The collision loop returns the smallest untaken numbered candidate when
one exists within fuel. -/
theorem availLoop_finds (ex : String → Bool) (base ext : String) :
    ∀ (fuel k target : Nat), k ≤ target → target < k + fuel →
      (∀ j, k ≤ j → j < target → ex (numberedName base ext j) = true) →
      ex (numberedName base ext target) = false →
      availLoop ex base ext fuel k = some (numberedName base ext target) := by
  intro fuel
  induction fuel with
  | zero =>
    intro k t hk ht _ _
    omega
  | succ fuel ih =>
    intro k t hk ht hall hf
    unfold availLoop
    by_cases hkt : k = t
    · subst hkt
      rw [hf]
      simp
    · have hk2 : k < t := lt_of_le_of_ne hk hkt
      rw [hall k le_rfl hk2]
      simp only [if_true]
      exact ih (k + 1) t (by omega) (by omega) (fun j hj1 hj2 => hall j (by omega) hj2) hf

/-- C1: for every archive and filter parameters, the list returned by
`filter_messages` is sorted ascending by parsed instant with a missing
instant as `datetime.min` (so it sorts at or below every parsed instant and
appears first), ties keep their original relative order (stable sort), and on
the concrete scenario with instants [unparseable, T2, T1] the output order is
[null-record, T1-record, T2-record]. -/
theorem C1_sorted_stable_output :
    (∀ (a : ArchiveT) (u : String) (fw cid : Option String) (sm : String),
      filter_messages (encodeArchive a) u fw cid sm =
        .ok (sortRecords (collectT a u fw cid sm)) ∧
      List.Sorted recLE (sortRecords (collectT a u fw cid sm)) ∧
      (∀ r ∈ collectT a u fw cid sm, natListLE minKey (sortKey r) = true) ∧
      (∀ k, (sortRecords (collectT a u fw cid sm)).filter (fun r => sortKey r == k) =
        (collectT a u fw cid sm).filter (fun r => sortKey r == k))) ∧
    filter_messages sortScenarioArchive "alice" (some "Hello") Option.none "first_word" =
      .ok [⟨Option.none, "not-a-date", "Hello A"⟩,
        ⟨some ⟨2025, 3, 19, 10, 0, 0, 0⟩, "March 19, 2025 10:00:00 AM", "Hello C"⟩,
        ⟨some ⟨2025, 3, 20, 10, 0, 0, 0⟩, "March 20, 2025 10:00:00 AM", "Hello B"⟩] := by
  refine ⟨fun a u fw cid sm => ⟨filter_messages_encode a u fw cid sm,
    sortRecords_sorted _, collectT_minKey a u fw cid sm,
    fun k => sortRecords_stable _ k⟩, ?_⟩
  rfl

theorem C1_sorted_stable_output_witness :
    natListLE minKey (sortKey ⟨Option.none, "Unknown Date", "Hello there"⟩) = true :=
  (C1_sorted_stable_output.1 typedOneMsg "alice" (some "Hello") Option.none
    "first_word").2.2.1 ⟨Option.none, "Unknown Date", "Hello there"⟩ (by decide)

/-- C2: in first_word mode, `filter_messages` selects exactly the messages
whose stripped sender equals the target and whose normalised content's first
whitespace token equals the word, case-sensitively; "Hello there" matches the
word "Hello" while "hello there" does not. -/
theorem C2_first_word_selection :
    (∀ (a : ArchiveT) (u w : String) (cid : Option String) (res : List FilteredRecord),
      filter_messages (encodeArchive a) u (some w) cid "first_word" = .ok res →
      ∀ r : FilteredRecord, r ∈ res ↔
        ∃ c ∈ a.convos?.getD [], convoSelected cid c = true ∧
          ∃ m ∈ c.msgs?.getD [],
            stripSender m.senderRaw = u ∧
            (pyWords (clean_content m.contentRaw)).head? = some w ∧
            r = recordOfMsg m) ∧
    filter_messages firstWordScenarioArchive "alice" (some "Hello") Option.none
      "first_word" = .ok [⟨Option.none, "Unknown Date", "Hello there"⟩] := by
  constructor
  · intro a u w cid res h r
    have hb := filter_messages_encode a u (some w) cid "first_word"
    rw [h] at hb
    injection hb with hres
    subst hres
    rw [mem_sortRecords, mem_collectT]
    simp only [processMessageT_first_word_iff]
  · rfl

theorem C2_first_word_selection_witness :
    ((⟨Option.none, "Unknown Date", "Hello there"⟩ : FilteredRecord) ∈
        sortRecords (collectT typedOneMsg "alice" (some "Hello") Option.none "first_word") ↔
      ∃ c ∈ typedOneMsg.convos?.getD [], convoSelected Option.none c = true ∧
        ∃ m ∈ c.msgs?.getD [],
          stripSender m.senderRaw = "alice" ∧
          (pyWords (clean_content m.contentRaw)).head? = some "Hello" ∧
          (⟨Option.none, "Unknown Date", "Hello there"⟩ : FilteredRecord) = recordOfMsg m) :=
  C2_first_word_selection.1 typedOneMsg "alice" "Hello" Option.none _
    (filter_messages_encode typedOneMsg "alice" (some "Hello") Option.none "first_word")
    ⟨Option.none, "Unknown Date", "Hello there"⟩

/-- C3: in review mode, `filter_messages` selects exactly the messages from
the target sender with token-bearing normalised content containing an `N/10`
or `N.N/10` token at word boundaries; no range validation is applied, so a
content containing "11/10" is selected; the specification's 9/10 scenario
yields exactly the alice record. -/
theorem C3_review_selection :
    (∀ (a : ArchiveT) (u : String) (fw cid : Option String)
        (res : List FilteredRecord),
      filter_messages (encodeArchive a) u fw cid "review" = .ok res →
      ∀ r : FilteredRecord, r ∈ res ↔
        ∃ c ∈ a.convos?.getD [], convoSelected cid c = true ∧
          ∃ m ∈ c.msgs?.getD [],
            stripSender m.senderRaw = u ∧
            pyWords (clean_content m.contentRaw) ≠ [] ∧
            searchRating (clean_content m.contentRaw) = true ∧
            r = recordOfMsg m) ∧
    searchRating "Terrible 11/10" = true ∧
    filter_messages reviewScenarioArchive "alice" Option.none Option.none "review" =
      .ok [⟨Option.none, "Unknown Date", "Great game 9/10 would play again"⟩] ∧
    filter_messages elevenScenarioArchive "alice" Option.none Option.none "review" =
      .ok [⟨Option.none, "Unknown Date", "Terrible 11/10"⟩] := by
  refine ⟨?_, rfl, rfl, rfl⟩
  intro a u fw cid res h r
  have hb := filter_messages_encode a u fw cid "review"
  rw [h] at hb
  injection hb with hres
  subst hres
  rw [mem_sortRecords, mem_collectT]
  simp only [processMessageT_review_iff]

theorem C3_review_selection_witness :
    ((⟨Option.none, "Unknown Date", "Great game 9/10 would play again"⟩ : FilteredRecord) ∈
        sortRecords (collectT typedReviewMsg "alice" Option.none Option.none "review") ↔
      ∃ c ∈ typedReviewMsg.convos?.getD [], convoSelected Option.none c = true ∧
        ∃ m ∈ c.msgs?.getD [],
          stripSender m.senderRaw = "alice" ∧
          pyWords (clean_content m.contentRaw) ≠ [] ∧
          searchRating (clean_content m.contentRaw) = true ∧
          (⟨Option.none, "Unknown Date", "Great game 9/10 would play again"⟩ :
            FilteredRecord) = recordOfMsg m) :=
  C3_review_selection.1 typedReviewMsg "alice" Option.none Option.none _
    (filter_messages_encode typedReviewMsg "alice" Option.none Option.none "review")
    ⟨Option.none, "Unknown Date", "Great game 9/10 would play again"⟩

/-- C4 counterexample: on the input `"2025-03-19T21:15:44ZZZ"` the display
normalisation fails to parse (after removing one `Z`) yet returns the once
stripped string rather than the original raw string, and the stored instant
(parsed after removing all trailing `Z`) is non-null — contradicting the
claim that on parse failure the display is the original raw string and the
instant is null. -/
theorem C4_timestamp_counterexample :
    format_date "2025-03-19T21:15:44ZZZ" = "2025-03-19T21:15:44ZZ" ∧
    ("2025-03-19T21:15:44ZZ" : String) ≠ "2025-03-19T21:15:44ZZZ" ∧
    fromisoformat (rstripZ "2025-03-19T21:15:44ZZZ") =
      some ⟨2025, 3, 19, 21, 15, 44, 0⟩ :=
  ⟨rfl, by decide, rfl⟩

/-- C4 (amended): for inputs with at most one trailing `Z`, stripping one
trailing `Z` and parsing gives either a 12-hour display and the same non-null
instant on both paths, or the once-stripped string (the original when there
is no trailing `Z`) as display and a null instant; never an error.  The
concrete conjuncts exhibit the `<FullMonthName> <DD>, <YYYY>
<hh>:<mm>:<ss> <AM/PM>` rendering. -/
theorem C4_timestamp_normalization (s : String)
    (h : (s.toList.reverse.takeWhile (fun c => c = 'Z')).length ≤ 1) :
    ((∃ dt, fromisoformat (stripOneZ s) = some dt ∧
        format_date s = strftimeDisplay dt ∧ fromisoformat (rstripZ s) = some dt) ∨
      (fromisoformat (stripOneZ s) = none ∧ format_date s = stripOneZ s ∧
        fromisoformat (rstripZ s) = none)) ∧
    (s.toList.getLast? ≠ some 'Z' → stripOneZ s = s) ∧
    format_date "2025-03-19T21:15:44.097Z" = "March 19, 2025 09:15:44 PM" ∧
    format_date "2025-12-01T00:05:09Z" = "December 01, 2025 12:05:09 AM" ∧
    format_date "not a timestamp" = "not a timestamp" := by
  refine ⟨?_, ?_, rfl, rfl, rfl⟩
  · rw [← stripOneZ_eq_rstripZ s h]
    cases hf : fromisoformat (stripOneZ s) with
    | some dt =>
      exact .inl ⟨dt, rfl, by unfold format_date; rw [hf], rfl⟩
    | none =>
      exact .inr ⟨rfl, by unfold format_date; rw [hf], rfl⟩
  · intro hz
    unfold stripOneZ
    rw [if_neg hz]

theorem C4_timestamp_normalization_witness :
    (∃ dt, fromisoformat (stripOneZ "2025-03-19T21:15:44.097Z") = some dt ∧
        format_date "2025-03-19T21:15:44.097Z" = strftimeDisplay dt ∧
        fromisoformat (rstripZ "2025-03-19T21:15:44.097Z") = some dt) ∨
      (fromisoformat (stripOneZ "2025-03-19T21:15:44.097Z") = none ∧
        format_date "2025-03-19T21:15:44.097Z" = stripOneZ "2025-03-19T21:15:44.097Z" ∧
        fromisoformat (rstripZ "2025-03-19T21:15:44.097Z") = none) :=
  (C4_timestamp_normalization "2025-03-19T21:15:44.097Z" (by decide)).1

/-- C5: `clean_content` decodes character entities and then removes paired
`<e_m ...>...</e_m>` spans with their text and self-closing `<e_m .../>`
tags alone, leaving the surrounding markup-free text unchanged. -/
theorem C5_markup_removal (pre suf : String)
    (hp : ∀ c ∈ pre.toList, c ≠ '&' ∧ c ≠ '<')
    (hs : ∀ c ∈ suf.toList, c ≠ '&' ∧ c ≠ '<') :
    clean_content (pre ++ "<e_m x=\"y\">hidden</e_m>" ++ suf) = pre ++ suf ∧
    clean_content (pre ++ "<e_m a=\"b\"/>" ++ suf) = pre ++ suf ∧
    clean_content "5 &lt; 7 &amp; more" = "5 < 7 & more" ∧
    clean_content "A&#66;C" = "ABC" :=
  ⟨clean_content_paired pre suf hp hs, clean_content_selfClosing pre suf hp hs,
    by decide, by decide⟩

theorem C5_markup_removal_witness :
    clean_content ("abc " ++ "<e_m x=\"y\">hidden</e_m>" ++ " def") = "abc " ++ " def" ∧
    clean_content ("abc " ++ "<e_m a=\"b\"/>" ++ " def") = "abc " ++ " def" :=
  ⟨(C5_markup_removal "abc " " def" (by decide) (by decide)).1,
   (C5_markup_removal "abc " " def" (by decide) (by decide)).2.1⟩

/-- C6: a successful run never emits a record whose normalised content splits
into no whitespace tokens, in any selection mode, for any archive value. -/
theorem C6_no_empty_content (data : PyVal) (u : String) (fw cid : Option String)
    (sm : String) (res : List FilteredRecord) (r : FilteredRecord)
    (h : filter_messages data u fw cid sm = .ok res) (hr : r ∈ res) :
    pyWords r.content ≠ [] := by
  intro hnil
  obtain ⟨m, hm⟩ := mem_filter_messages h hr
  have h2 := (processMessage_ok_some hm).2
  rw [hnil] at h2
  cases h2

theorem C6_no_empty_content_witness :
    pyWords (FilteredRecord.mk Option.none "Unknown Date" "Hello there").content ≠ [] :=
  C6_no_empty_content missingTimeArchive "alice" (some "Hello") Option.none "first_word"
    [⟨Option.none, "Unknown Date", "Hello there"⟩]
    ⟨Option.none, "Unknown Date", "Hello there"⟩ rfl (List.mem_singleton.mpr rfl)

/-- C7: the sender compared against the target is the part after the first
colon when one is present ("8:alice" compares as "alice", "8:live:alice" as
"live:alice") and the whole string otherwise; every emitted record comes from
a message whose resolved sender equals the target, and a message whose
resolved sender differs is never selected. -/
theorem C7_sender_stripping :
    stripSender "8:alice" = "alice" ∧
    stripSender "8:live:alice" = "live:alice" ∧
    (∀ s : String, s.toList.contains ':' = false → stripSender s = s) ∧
    (∀ m : MsgT, resolveSender (encodeMsg m) = .ok (.pstr (stripSender m.senderRaw))) ∧
    (∀ (data : PyVal) (u : String) (fw cid : Option String) (sm : String)
        (res : List FilteredRecord) (r : FilteredRecord),
      filter_messages data u fw cid sm = .ok res → r ∈ res →
      ∃ m v, processMessage u fw sm m = .ok (some r) ∧
        resolveSender m = .ok v ∧ v.eqStr u = true) ∧
    (∀ (u : String) (fw : Option String) (sm : String) (msg v : PyVal),
      resolveSender msg = .ok v → v.eqStr u = false →
      ∀ r, processMessage u fw sm msg ≠ .ok (some r)) := by
  refine ⟨by decide, by decide, ?_, resolveSender_encodeMsg, ?_, ?_⟩
  · intro s hcol
    unfold stripSender
    have hnc : ¬(s.toList.contains ':' = true) := by
      rw [hcol]
      exact Bool.false_ne_true
    rw [if_neg hnc]
  · intro data u fw cid sm res r h hr
    obtain ⟨m, hm⟩ := mem_filter_messages h hr
    obtain ⟨⟨v, hv, he⟩, _⟩ := processMessage_ok_some hm
    exact ⟨m, v, hm, hv, he⟩
  · intro u fw sm msg v hv hne
    exact processMessage_sender_mismatch hv hne

theorem C7_sender_stripping_witness :
    stripSender "alice" = "alice" ∧
    (∀ r, processMessage "alice" (some "Hello") "first_word"
      (.pdict [("from", .pstr "8:bob"), ("content", .pstr "Hello there")]) ≠
        .ok (some r)) :=
  ⟨C7_sender_stripping.2.2.1 "alice" (by decide),
   C7_sender_stripping.2.2.2.2.2 "alice" (some "Hello") "first_word"
     (.pdict [("from", .pstr "8:bob"), ("content", .pstr "Hello there")])
     (.pstr "bob") rfl (by decide)⟩

/-- A `dropWhile` result starts with an element failing the predicate. -/
theorem dropWhile_head_false {α : Type} {p : α → Bool} :
    ∀ {l : List α} {c : α} {l2 : List α}, l.dropWhile p = c :: l2 → p c = false := by
  intro l
  induction l with
  | nil => intro c l2 h; cases h
  | cons x xs ih =>
    intro c l2 h
    rw [List.dropWhile_cons] at h
    split at h
    · exact ih h
    · rename_i hpx
      cases h
      exact Bool.eq_false_iff.mpr hpx

/-- A string with no sign character past the date part parses, if at all, to
an offset-naive value. -/
theorem fromisoformatTz_naive_of_no_sign {t : String} {d : PyDateTimeTz}
    (hns : ∀ c ∈ t.toList.drop 10, isSignCh c = false)
    (h : fromisoformatTz t = some d) : d.tzoff = Option.none := by
  unfold fromisoformatTz at h
  split at h
  · rename_i y1 y2 y3 y4 mo1 mo2 d1 d2 rest heq
    have hrest : ∀ c ∈ rest, isSignCh c = false := by
      intro c hc
      apply hns
      rw [heq]
      exact hc
    split at h
    · split at h
      · rename_i hq miq seq usq tzq heq2
        have htz : tzq = Option.none := by
          split at heq2
          · simp only [Option.some.injEq, Prod.mk.injEq] at heq2
            exact heq2.2.symm
          · rename_i hd tl
            split at heq2
            · simp only [Option.some.injEq, Prod.mk.injEq] at heq2
              exact heq2.2.symm
            · rename_i t1 sign tzs heqpt heqdw
              have hh := dropWhile_head_false heqdw
              have hmemdw : sign ∈ tl.dropWhile (fun c => !isSignCh c) := by
                rw [heqdw]
                exact List.mem_cons_self _ _
              have hmem : sign ∈ hd :: tl :=
                List.mem_cons_of_mem _ ((List.dropWhile_sublist _).subset hmemdw)
              have hs := hrest sign hmem
              simp [hs] at hh
            · cases heq2
        split at h
        · cases h
          exact htz
        · cases h
      · cases h
    · cases h
  · cases h

/-- A record selected with full timestamp fidelity is the full record of its
message. -/
theorem processMessageTzT_some {u : String} {fw : Option String} {sm : String}
    {m : MsgT} {r : FilteredRecordTz}
    (h : processMessageTzT u fw sm m = some r) : r = recordOfMsgTz m := by
  unfold processMessageTzT at h
  split at h
  · cases h; rfl
  · cases h

/-- In an archive all of whose timestamps are offset-naive, every collected
record's sort key is offset-naive. -/
theorem collectTz_keys_naive {a : ArchiveT} {u : String} {fw cid : Option String}
    {sm : String} (hn : archiveNaive a = true) :
    ∀ r ∈ collectTz a u fw cid sm, (keyTz r).tzoff = Option.none := by
  intro r hr
  simp only [collectTz, List.mem_flatMap, List.mem_filter, List.mem_filterMap] at hr
  obtain ⟨c, ⟨hc, _⟩, m, hm, hpm⟩ := hr
  have hrec := processMessageTzT_some hpm
  subst hrec
  unfold archiveNaive at hn
  have hcn := List.all_eq_true.mp hn c hc
  have hmn : naiveTimestamp m.arrivalRaw = true := List.all_eq_true.mp hcn m hm
  unfold keyTz recordOfMsgTz
  cases hf : fromisoformatTz (rstripZ m.arrivalRaw) with
  | none => rfl
  | some dtz =>
    show dtz.tzoff = Option.none
    apply fromisoformatTz_naive_of_no_sign ?_ hf
    intro ch hch
    unfold naiveTimestamp at hmn
    have hall := List.all_eq_true.mp hmn ch hch
    simp only [Bool.and_eq_true] at hall
    have h2 := hall.1.1
    simpa using h2

/-- Inserting a record with an offset-naive key into a list of records with
offset-naive keys never raises, and keeps all keys offset-naive. -/
theorem orderedInsertE_naive (a : FilteredRecordTz)
    (ha : (keyTz a).tzoff = Option.none) :
    ∀ (l : List FilteredRecordTz), (∀ b ∈ l, (keyTz b).tzoff = Option.none) →
    ∃ l2, orderedInsertE a l = .ok l2 ∧ ∀ x ∈ l2, (keyTz x).tzoff = Option.none := by
  intro l
  induction l with
  | nil =>
    intro _
    refine ⟨[a], rfl, ?_⟩
    intro x hx
    rw [List.mem_singleton.mp hx]
    exact ha
  | cons b bs ih =>
    intro hl
    have hb := hl b (List.mem_cons_self b bs)
    obtain ⟨l2, hl2, hall⟩ := ih (fun x hx => hl x (List.mem_cons_of_mem _ hx))
    have hcmp : cmpKeyLe (keyTz a) (keyTz b) =
        .ok (natListLE (fieldsOfTz (keyTz a)) (fieldsOfTz (keyTz b))) := by
      unfold cmpKeyLe
      rw [ha, hb]
    rw [orderedInsertE, hcmp]
    cases hle : natListLE (fieldsOfTz (keyTz a)) (fieldsOfTz (keyTz b)) with
    | true =>
      refine ⟨a :: b :: bs, rfl, ?_⟩
      intro x hx
      rcases List.mem_cons.mp hx with rfl | hx2
      · exact ha
      rcases List.mem_cons.mp hx2 with rfl | hx3
      · exact hb
      · exact hl x (List.mem_cons_of_mem _ hx3)
    | false =>
      refine ⟨b :: l2, ?_, ?_⟩
      · rw [hl2]
      · intro x hx
        rcases List.mem_cons.mp hx with rfl | hx2
        · exact hb
        · exact hall x hx2

/-- Sorting records whose keys are all offset-naive never raises. -/
theorem insertionSortE_naive :
    ∀ (l : List FilteredRecordTz), (∀ b ∈ l, (keyTz b).tzoff = Option.none) →
    ∃ l2, insertionSortE l = .ok l2 ∧ ∀ x ∈ l2, (keyTz x).tzoff = Option.none := by
  intro l
  induction l with
  | nil =>
    intro _
    exact ⟨[], rfl, by intro x hx; cases hx⟩
  | cons a l ih =>
    intro hl
    obtain ⟨l2, h2, hall⟩ := ih (fun x hx => hl x (List.mem_cons_of_mem _ hx))
    obtain ⟨l3, h3, hall3⟩ :=
      orderedInsertE_naive a (hl a (List.mem_cons_self a l)) l2 hall
    refine ⟨l3, ?_, hall3⟩
    rw [insertionSortE, h2]
    exact h3

/-- C8 counterexample: a JSON archive that is an array rather than an object
makes `filter_messages` raise `AttributeError` at `data.get`; and an archive
of the documented object shape whose two selected messages carry the
timestamps `"2024-01-01T00:00:00+00:00"` (which parses offset-aware) and
`"2024-01-01T00:00:00"` (which parses offset-naive) makes the final sort
raise `TypeError` when it compares the two keys.  So the claim that every
archive value yields a result with no error is false. -/
theorem C8_counterexample :
    filter_messages (.plist []) "alice" Option.none Option.none "review" =
      .error .attributeError ∧
    filter_messagesTz mixedTzArchive "alice" (some "Hello") Option.none "first_word" =
      .error .typeError :=
  ⟨rfl, rfl⟩

/-- C8 (amended): for every archive of the documented object shape with any
subset of the expected keys absent, whose timestamps carry no timezone
designator surviving the trailing-Z strip (`archiveNaive`), `filter_messages`
returns a result and raises no error — shown over the full-timestamp
refinement `filter_messagesTz`, where the sort's raising comparison is
modelled, and over the dynamic walk on the encoded archive; missing keys
default (no "conversations" → empty run; message with no keys → skipped;
missing "originalarrivaltime" → "Unknown Date" display and a null
instant). -/
theorem C8_graceful_degradation :
    (∀ (a : ArchiveT) (u : String) (fw cid : Option String) (sm : String),
      archiveNaive a = true →
      (∃ res, filter_messagesTz a u fw cid sm = .ok res) ∧
      (∃ res, filter_messages (encodeArchive a) u fw cid sm = .ok res)) ∧
    (∀ (u : String) (fw cid : Option String) (sm : String),
      filter_messages (.pdict []) u fw cid sm = .ok []) ∧
    filter_messages missingKeysArchive "alice" (some "Hello") Option.none "first_word" =
      .ok [] ∧
    filter_messages missingTimeArchive "alice" (some "Hello") Option.none "first_word" =
      .ok [⟨Option.none, "Unknown Date", "Hello there"⟩] := by
  refine ⟨?_, fun _ _ _ _ => rfl, rfl, rfl⟩
  intro a u fw cid sm hn
  refine ⟨?_, ⟨_, filter_messages_encode a u fw cid sm⟩⟩
  obtain ⟨l2, h2, _⟩ :=
    insertionSortE_naive (collectTz a u fw cid sm) (collectTz_keys_naive hn)
  exact ⟨l2, h2⟩

theorem C8_graceful_degradation_witness :
    archiveNaive typedOneMsg = true ∧
    (∃ res, filter_messagesTz typedOneMsg "alice" (some "Hello") Option.none
      "first_word" = .ok res) ∧
    (∃ res, filter_messages (encodeArchive typedOneMsg) "alice" (some "Hello")
      Option.none "first_word" = .ok res) :=
  ⟨by decide,
   (C8_graceful_degradation.1 typedOneMsg "alice" (some "Hello") Option.none
     "first_word" (by decide)).1,
   (C8_graceful_degradation.1 typedOneMsg "alice" (some "Hello") Option.none
     "first_word" (by decide)).2⟩

/-- C9: with an injected existence predicate, the namer returns the name
unchanged when free, else `<base>_<k><ext>` for the least `k ≥ 1` whose
candidate is free (within the loop fuel); it only probes existence.  The
concrete scenario returns `alice_messages_1.docx`. -/
theorem C9_output_namer :
    (∀ (ex : String → Bool) (fn : String) (fuel : Nat),
      ex fn = false → get_available_filename ex fuel fn = some fn) ∧
    (∀ (ex : String → Bool) (fn : String) (fuel n : Nat),
      ex fn = true → 1 ≤ n →
      (∀ j, 1 ≤ j → j < n → ex (numberedName (splitext fn).1 (splitext fn).2 j) = true) →
      ex (numberedName (splitext fn).1 (splitext fn).2 n) = false →
      n ≤ fuel →
      get_available_filename ex fuel fn =
        some (numberedName (splitext fn).1 (splitext fn).2 n)) ∧
    get_available_filename (fun n => n == "alice_messages.docx") 5
      "alice_messages.docx" = some "alice_messages_1.docx" ∧
    numberedName "alice_messages" ".docx" 1 = "alice_messages_1.docx" ∧
    splitext "alice_messages.docx" = ("alice_messages", ".docx") := by
  refine ⟨?_, ?_, by decide, by decide, by decide⟩
  · intro ex fn fuel h
    unfold get_available_filename
    rw [if_neg (by simp [h])]
  · intro ex fn fuel n h1 hn hall hf hfuel
    unfold get_available_filename
    rw [if_pos h1]
    exact availLoop_finds ex (splitext fn).1 (splitext fn).2 fuel 1 n hn (by omega)
      (fun j hj1 hj2 => hall j hj1 hj2) hf

theorem C9_output_namer_witness :
    get_available_filename (fun _ => false) 3 "a.docx" = some "a.docx" ∧
    get_available_filename (fun n => n == "alice_messages.docx") 5
      "alice_messages.docx" =
      some (numberedName (splitext "alice_messages.docx").1
        (splitext "alice_messages.docx").2 1) :=
  ⟨C9_output_namer.1 (fun _ => false) "a.docx" 3 rfl,
   C9_output_namer.2.1 (fun n => n == "alice_messages.docx") "alice_messages.docx" 5 1
     (by decide) le_rfl (fun j hj1 hj2 => absurd hj1 (by omega)) (by decide) (by omega)⟩

/-- C10: with a `None` or empty conversation id every conversation is
processed; with a non-empty id exactly the conversations whose id equals it
are processed — several when they share the id, none (empty result) when no
id matches. -/
theorem C10_conversation_filter :
    (∀ (a : ArchiveT) (u : String) (fw cid : Option String) (sm : String),
      filter_messages (encodeArchive a) u fw cid sm =
        .ok (sortRecords (((a.convos?.getD []).filter (convoSelected cid)).flatMap
          (fun c => (c.msgs?.getD []).filterMap (processMessageT u fw sm))))) ∧
    (∀ (cid : Option String) (c : ConvoT), truthyOptStr cid = false →
      convoSelected cid c = true) ∧
    (∀ (s : String) (c : ConvoT), s ≠ "" →
      (convoSelected (some s) c = true ↔ c.id? = some s)) ∧
    truthyOptStr Option.none = false ∧
    truthyOptStr (some "") = false ∧
    filter_messages sharedIdArchive "alice" (some "Hello") (some "conv") "first_word" =
      .ok [⟨Option.none, "Unknown Date", "Hello A"⟩,
        ⟨Option.none, "Unknown Date", "Hello B"⟩] ∧
    filter_messages sharedIdArchive "alice" (some "Hello") (some "zzz") "first_word" =
      .ok [] := by
  refine ⟨fun a u fw cid sm => filter_messages_encode a u fw cid sm, ?_, ?_, rfl, rfl,
    rfl, rfl⟩
  · intro cid c h
    unfold convoSelected
    rw [if_neg (by simp [h])]
  · intro s c hne
    have ht : truthyOptStr (some s) = true := by
      unfold truthyOptStr
      cases hwe : s.isEmpty
      · simp [hwe]
      · exact absurd ((String.isEmpty_iff s).mp hwe) hne
    unfold convoSelected
    rw [if_pos ht]
    cases c.id? with
    | none => simp
    | some i => simp [beq_iff_eq]

theorem C10_conversation_filter_witness :
    convoSelected (some "conv") (⟨some "conv", Option.none⟩ : ConvoT) = true ↔
      (⟨some "conv", Option.none⟩ : ConvoT).id? = some "conv" :=
  C10_conversation_filter.2.2.1 "conv" ⟨some "conv", Option.none⟩ (by decide)

end Skype
